import Mathlib

/-!
aart: nearest-two-colour search, glyph index and atlas cell arithmetic.

A shallow embedding of `src/aart/main.cpp`.

* Colours are `lab_t T`.  Distances live in a type `D`; `similar2` only ever
  compares them with `<`, `getCell` also divides and converts to `int`, so the
  theorems take `D` to be a linear order, respectively a linearly ordered field
  with a floor function, where the arithmetic is exact (NaN and infinities are
  outside the model).  Where the rounding of `float` decides a statement, the
  glyph index is `char_pos_f32`, which rounds every operation to IEEE 754
  binary32.
* Iterators into the palette (`cv::MatConstIterator_`) are positions `Nat`
  counted from `palette.begin()`; the palette is the list of its elements in
  iteration order.
* `int` values are `Int`; C++ integer division is `Int.tdiv`.
-/

namespace Aart

/-- Colour in Lab space, `lab_t<T>` (main.cpp 56-70). -/
structure lab_t (T : Type) where
  l : T
  a : T
  b : T
deriving DecidableEq, Repr

/-- Rectangle `cv::Rect{x, y, width, height}`. -/
structure Rect where
  x : Int
  y : Int
  width : Int
  height : Int
deriving DecidableEq, Repr

/-- Pixel `(px, py)` lies in the rectangle (half-open on the right and bottom, as in OpenCV). -/
def Rect.contains (r : Rect) (px py : Int) : Prop :=
  r.x ≤ px ∧ px < r.x + r.width ∧ r.y ≤ py ∧ py < r.y + r.height

instance (r : Rect) (px py : Int) : Decidable (r.contains px py) := by
  unfold Rect.contains; infer_instance

/-- `CIE76_distance` (main.cpp 118-122): `sqrt(pow(x.l - y.l, 2) + pow(x.a - y.a, 2) + pow(x.b - y.b, 2))`.
The library function `sqrt` is a parameter. -/
def CIE76_distance {T : Type} [Ring T] (sqrt : T → T) (x y : lab_t T) : T :=
  sqrt ((x.l - y.l) ^ 2 + (x.a - y.a) ^ 2 + (x.b - y.b) ^ 2)

/-- `similar` (main.cpp 124-134): `std::reduce` over `palette.begin() + 1 .. end()` from
`*palette.begin()`, keeping `curr` when it is strictly closer than `prev`.  Dereferencing
`begin()` of an empty palette is undefined: `none`. -/
def similar {T D : Type} [LT D] [DecidableRel (α := D) (· < ·)]
    (goal : T) (palette : List T) (distance : T → T → D) : Option T :=
  match palette with
  | [] => none
  | p0 :: rest =>
    some (rest.foldl (fun prev curr =>
      if distance goal curr < distance goal prev then curr else prev) p0)

/-- Local variables of `similar2` that the loop updates (main.cpp 154-157). -/
structure Similar2State (D : Type) where
  dmin1 : D
  dmin2 : D
  c1 : Nat
  c2 : Nat
deriving DecidableEq, Repr

/-- Body of the `for` loop of `similar2` (main.cpp 162-175) at position `c` with
`delta = distance(goal, *c)`. -/
def similar2_step {D : Type} [LT D] [DecidableRel (α := D) (· < ·)]
    (delta : D) (c : Nat) (s : Similar2State D) : Similar2State D :=
  if delta < s.dmin1 then
    { dmin1 := delta, dmin2 := s.dmin1, c1 := c, c2 := s.c1 }
  else if delta < s.dmin2 then
    { dmin1 := s.dmin1, dmin2 := delta, c1 := s.c1, c2 := c }
  else s

/-- The `for` loop of `similar2` (main.cpp 160-176): `todo` are the elements from the
iterator `c` to `palette.end()`. -/
def similar2_loop {T D : Type} [LT D] [DecidableRel (α := D) (· < ·)]
    (goal : T) (distance : T → T → D) : List T → Nat → Similar2State D → Similar2State D
  | [], _, s => s
  | x :: todo, c, s => similar2_loop goal distance todo (c + 1) (similar2_step (distance goal x) c s)

/-- Final loop state of `similar2`; `none` for an empty palette, where `*palette.begin()`
is undefined. -/
def similar2_run {T D : Type} [LT D] [DecidableRel (α := D) (· < ·)]
    (goal : T) (palette : List T) (distance : T → T → D) : Option (Similar2State D) :=
  match palette with
  | [] => none
  | p0 :: rest =>
    some (similar2_loop goal distance rest 1
      { dmin1 := distance goal p0, dmin2 := distance goal p0, c1 := 0, c2 := 0 })

/-- `similar2` (main.cpp 151-179): the positions `(c1, c2)` of the returned iterators. -/
def similar2 {T D : Type} [LT D] [DecidableRel (α := D) (· < ·)]
    (goal : T) (palette : List T) (distance : T → T → D) : Option (Nat × Nat) :=
  (similar2_run goal palette distance).map fun s => (s.c1, s.c2)

/-- Conversion of a floating value to `int`: truncation toward zero. -/
def truncToInt {D : Type} [LinearOrderedField D] [FloorRing D] (v : D) : Int :=
  if 0 ≤ v then ⌊v⌋ else ⌈v⌉

/-- The glyph index of `getCell` (main.cpp 221-223):
`const int char_pos = fg_delta == 0 ? m_nchars - 1 : bg_delta / fg_delta * (m_nchars - 1);`
The conditional has the floating type, the initialisation converts it to `int`.  The
quotient and the product are exact here; `char_pos_f32` below rounds each of them to `float`. -/
def char_pos {D : Type} [LinearOrderedField D] [FloorRing D]
    (m_nchars : Int) (bg_delta fg_delta : D) : Int :=
  truncToInt (if fg_delta = 0 then ((m_nchars - 1 : Int) : D)
    else bg_delta / fg_delta * ((m_nchars - 1 : Int) : D))

/-- Rounding of a rational to the nearest integer, a tie going to the even one. -/
def roundHalfEven (q : ℚ) : Int :=
  if q - ⌊q⌋ < 1 / 2 then ⌊q⌋
  else if 1 / 2 < q - ⌊q⌋ then ⌊q⌋ + 1
  else if ⌊q⌋ % 2 = 0 then ⌊q⌋ else ⌊q⌋ + 1

/-- The binary exponent under which `float` (IEEE 754 binary32) stores a value of magnitude
`|x|`: `e` with `2^e ≤ |x| < 2^(e+1)`, and `-126` for the subnormal values below `2^(-126)`. -/
def f32_exponent (x : ℚ) : Int := max (Int.log 2 |x|) (-126)

/-- Rounding of an exact value to `float` (IEEE 754 binary32, round to nearest, ties to even):
the nearest multiple of `2^(e - 23)`, that is 24 significant bits, where `e` is
`f32_exponent x`.  Overflow to infinity is left to `to_f32`. -/
def round_f32 (x : ℚ) : ℚ :=
  (roundHalfEven (x / 2 ^ (f32_exponent x - 23)) : ℚ) * 2 ^ (f32_exponent x - 23)

/-- The largest finite `float`, `(2^24 - 1) * 2^104`. -/
def f32_max : ℚ := (2 ^ 24 - 1) * 2 ^ 104

/-- The `float` result of an operation whose exact value is `x`; `none` when it overflows to
infinity (converting an infinity or a NaN to `int` afterwards is undefined). -/
def to_f32 (x : ℚ) : Option ℚ :=
  if |round_f32 x| ≤ f32_max then some (round_f32 x) else none

/-- Conversion of a `float` to the 32-bit `int`: truncation toward zero, undefined (`none`)
when the truncated value is not an `int`. -/
def f32_to_int (v : ℚ) : Option Int :=
  if -(2 ^ 31) ≤ truncToInt v ∧ truncToInt v < 2 ^ 31 then some (truncToInt v) else none

/-- The glyph index of `getCell` (main.cpp 221-223) for `T = float`, the type `main` uses
(main.cpp 273-280): `m_nchars - 1` is converted to `float`, the quotient
`bg_delta / fg_delta` and the product are each rounded to `float`, and the result is
converted to `int`. -/
def char_pos_f32 (m_nchars : Int) (bg_delta fg_delta : ℚ) : Option Int :=
  if fg_delta = 0 then f32_to_int (round_f32 ((m_nchars - 1 : Int) : ℚ))
  else
    (to_f32 (bg_delta / fg_delta)).bind fun q =>
      (to_f32 (q * round_f32 ((m_nchars - 1 : Int) : ℚ))).bind f32_to_int

/-- The members of `Charmap` that are set by its constructor (main.cpp 184-188, 233-235).
`m_colormap` holds the palette already converted to Lab, as its elements in iteration
order, `colormap_width` is `m_colormap.size().width` (equal to the number of elements for a
single-row palette), `charmap_width` and `charmap_height` are the atlas size
`m_charmap.size()`. -/
structure Charmap (T : Type) where
  charmap_width : Nat
  charmap_height : Nat
  m_colormap : List T
  colormap_width : Nat
  m_chars : String

namespace Charmap

variable {T : Type}

/-- `m_nchars = m_chars.length()` (main.cpp 237): the number of bytes of the `std::string`. -/
def m_nchars (cm : Charmap T) : Int := (cm.m_chars.utf8ByteSize : Int)

/-- `m_ncolors = m_colormap.size().width` (main.cpp 238). -/
def m_ncolors (cm : Charmap T) : Int := (cm.colormap_width : Int)

/-- `m_cellw = m_charmap.size().width / m_nchars` (main.cpp 240).  The C++ division by zero
is undefined; the model yields 0 there. -/
def m_cellw (cm : Charmap T) : Int := Int.tdiv (cm.charmap_width : Int) cm.m_nchars

/-- `m_cellh = m_charmap.size().height / (m_ncolors * m_ncolors)` (main.cpp 241). -/
def m_cellh (cm : Charmap T) : Int :=
  Int.tdiv (cm.charmap_height : Int) (cm.m_ncolors * cm.m_ncolors)

/-- `m_ncells = m_nchars * m_ncolors * m_ncolors` (main.cpp 242). -/
def m_ncells (cm : Charmap T) : Int := cm.m_nchars * cm.m_ncolors * cm.m_ncolors

/-- `cellW()` (main.cpp 190-193). -/
def cellW (cm : Charmap T) : Int := cm.m_cellw

/-- `cellH()` (main.cpp 195-198). -/
def cellH (cm : Charmap T) : Int := cm.m_cellh

/-- `calc_pos` (main.cpp 244-252): iterator differences from `m_colormap.begin()`. -/
def calc_pos (_cm : Charmap T) (bg_color fg_color : Nat) : Int × Int :=
  ((bg_color : Int), (fg_color : Int))

end Charmap

/-- The rectangle `cv::Rect{ cell_x, cell_y, m_cellw, m_cellh }` of `getCell` (main.cpp 226-229)
for glyph index `char_pos` and palette positions `bg_pos`, `fg_pos`. -/
def Charmap.cellRect {T : Type} (cm : Charmap T) (char_pos bg_pos fg_pos : Int) : Rect :=
  { x := char_pos * cm.m_cellw,
    y := (bg_pos * cm.m_ncolors + fg_pos) * cm.m_cellh,
    width := cm.m_cellw,
    height := cm.m_cellh }

/-- Local variables of `getCell` (main.cpp 214-227). -/
structure CellLocals (D : Type) where
  bg_pos : Int
  fg_pos : Int
  bg_delta : D
  fg_delta : D
  char_pos : Int
  cell_x : Int
  cell_y : Int

/-- The body of `getCell` up to the cell position (main.cpp 214-227). -/
def Charmap.getCell_locals {T D : Type} [LinearOrderedField D] [FloorRing D]
    (cm : Charmap T) (color : T) (distance : T → T → D) : Option (CellLocals D) :=
  match similar2 color cm.m_colormap distance with
  | none => none
  | some (bg_color, fg_color) =>
    match cm.m_colormap[bg_color]?, cm.m_colormap[fg_color]? with
    | some bg, some fg =>
      let pos := cm.calc_pos bg_color fg_color
      let bg_delta := distance color bg
      let fg_delta := distance color fg
      let cp := char_pos cm.m_nchars bg_delta fg_delta
      some { bg_pos := pos.1, fg_pos := pos.2, bg_delta := bg_delta, fg_delta := fg_delta,
             char_pos := cp, cell_x := (cm.cellRect cp pos.1 pos.2).x,
             cell_y := (cm.cellRect cp pos.1 pos.2).y }
    | _, _ => none

/-- `Charmap::getCell` (main.cpp 210-230): the rectangle of the atlas that is returned. -/
def Charmap.getCell {T D : Type} [LinearOrderedField D] [FloorRing D]
    (cm : Charmap T) (color : T) (distance : T → T → D) : Option Rect :=
  (cm.getCell_locals color distance).map fun s =>
    cm.cellRect s.char_pos s.bg_pos s.fg_pos

/-- The block of the output written for source pixel `(x, y)` (main.cpp 281):
`cv::Rect{ x * cellw, y * cellh, cellw, cellh }`. -/
def roi (x y cellw cellh : Int) : Rect :=
  { x := x * cellw, y := y * cellh, width := cellw, height := cellh }

/-- Width of the output canvas `art` (main.cpp 271): `picw * cellw` columns. -/
def art_width (picw cellw : Int) : Int := picw * cellw

/-- Height of the output canvas `art` (main.cpp 271): `pich * cellh` rows. -/
def art_height (pich cellh : Int) : Int := pich * cellh

/-- The positions `pic.forEach` visits (main.cpp 273-275): `0 ≤ x < picw`, `0 ≤ y < pich`. -/
def isSourcePixel (picw pich x y : Int) : Prop :=
  0 ≤ x ∧ x < picw ∧ 0 ≤ y ∧ y < pich

instance (picw pich x y : Int) : Decidable (isSourcePixel picw pich x y) := by
  unfold isSourcePixel; infer_instance

/-- Palette entry Black of the two-colour scenario: `L = 0, a = 0, b = 0`. -/
def Black : lab_t ℝ := { l := 0, a := 0, b := 0 }

/-- Palette entry White of the two-colour scenario: `L = 100, a = 0, b = 0`. -/
def White : lab_t ℝ := { l := 100, a := 0, b := 0 }

/-- The sample colour `L = 25, a = 0, b = 0`. -/
def darkGrey : lab_t ℝ := { l := 25, a := 0, b := 0 }

/-- The `Charmap` of the two-colour scenario: a single-row palette `[Black, White]`, the ramp
`" #"` of length 2, and an atlas of `w x h` pixels. -/
def scenarioCharmap (w h : Nat) : Charmap (lab_t ℝ) :=
  { charmap_width := w, charmap_height := h, m_colormap := [Black, White],
    colormap_width := 2, m_chars := " #" }

/-- Loop invariant of `similar2` after the palette prefix with distances `ds` (from the goal)
has been visited. -/
structure Similar2Inv {D : Type} [LinearOrder D] (ds : List D) (s : Similar2State D) : Prop where
  d1 : ds[s.c1]? = some s.dmin1
  d2 : ds[s.c2]? = some s.dmin2
  le12 : s.dmin1 ≤ s.dmin2
  min1 : ∀ (j : Nat) (d : D), ds[j]? = some d → s.dmin1 ≤ d
  min2 : ∀ (j : Nat) (d : D), ds[j]? = some d → j ≠ s.c1 → s.dmin2 ≤ d
  first1 : ∀ (j : Nat) (d : D), ds[j]? = some d → j < s.c1 → s.dmin1 < d
  first2 : ∀ (j : Nat) (d : D), ds[j]? = some d → j < s.c2 → j ≠ s.c1 → s.dmin2 < d
  same : s.c1 = s.c2 → s.c1 = 0
  diff : ∀ d0, ds[0]? = some d0 → s.c1 ≠ s.c2 → s.dmin1 < d0

/-- `Charmap::Charmap` (main.cpp 184-188) with the member initialisers (main.cpp 237-242):
the constructor stores its arguments and checks nothing.  It has no result, `none`, where a
member initialiser that the cell geometry needs is undefined in C++: the division by zero in
`m_cellw` (empty `chars`) or in `m_cellh` (palette of width 0), and the overflow of the 32-bit
`int` product `m_ncolors * m_ncolors` that `m_cellh` divides by (from width 46341 on; at
width 65536 the product wraps to 0 and the division traps).  The product of `m_ncells`
(main.cpp 242), which only `size()` reads, and the conversion of `m_chars.length()` to `int`
are taken as exact here; the theorems on construction that depend on them bound
`m_nchars * m_ncolors * m_ncolors` below `2^31`. -/
def Charmap.construct {T : Type} (charmap_width charmap_height : Nat) (colormap : List T)
    (colormap_width : Nat) (chars : String) : Option (Charmap T) :=
  if chars.utf8ByteSize = 0 ∨ colormap_width = 0 ∨ 2 ^ 31 ≤ colormap_width * colormap_width then
    none
  else some { charmap_width := charmap_width, charmap_height := charmap_height,
              m_colormap := colormap, colormap_width := colormap_width, m_chars := chars }

/-- The indices that select a tile of the atlas: glyph, background and foreground. -/
structure TileSelection where
  glyph : Int
  bg : Int
  fg : Int
deriving DecidableEq, Repr

/-- Modelled from the spec: `SimilarColors<float>` of `comparators.h`, which is not among the
sources; per pixel "best/second-best indices and distances" of the nearest-pair search
(spec 4.6). -/
structure SimilarColors (D : Type) where
  best : Nat
  second : Nat
  d1 : D
  d2 : D

/-- Modelled from the spec: one comparison of the search for the nearest palette entry that
the contract of spec 4.2 rests on, whose device code is not among the sources: the entry `e`
replaces the nearest one so far only when it is strictly closer, so that "ties keep the
earlier-indexed entry". -/
def nearestEntry_step {D : Type} [LT D] [DecidableRel (α := D) (· < ·)]
    (best : Option (Nat × D)) (e : Nat × D) : Option (Nat × D) :=
  match best with
  | none => some e
  | some b => if e.2 < b.2 then some e else some b

/-- Modelled from the spec: the nearest of a list of `(position, distance)` entries, by
`nearestEntry_step` from the first entry to the last; `none` for no entries. -/
def nearestEntry {D : Type} [LT D] [DecidableRel (α := D) (· < ·)]
    (entries : List (Nat × D)) : Option (Nat × D) :=
  entries.foldl nearestEntry_step none

/-- Modelled from the spec: `nearestPair` of spec 4.2, whose device code is not among the
sources, by its contract: "`(closest, secondClosest, d1, d2)` where
`d1 = distance(goal, closest) ≤ d2 = distance(goal, secondClosest) ≤ distance(goal, p)` for
every other palette entry `p`", "correct for N=2 (degenerate case: closest and secondClosest
are the two entries)", ties keeping "the earlier-indexed entry in both slots".  The closest is
the nearest entry of the palette, the second-closest the nearest entry at another position;
for fewer than 2 entries the "nearest-pair search is undefined" (spec 7): `none`.  Where the
algorithm paragraph of spec 4.2 ("initialize both to the first entry") would give the first
entry twice, the contract and the scenario of spec 8 are followed. -/
def nearestPair {T D : Type} [LT D] [DecidableRel (α := D) (· < ·)]
    (goal : T) (palette : List T) (distance : T → T → D) : Option (SimilarColors D) :=
  match nearestEntry (palette.map (distance goal)).enum with
  | none => none
  | some (i1, d1) =>
    match nearestEntry ((palette.map (distance goal)).enum.filter fun e => e.1 ≠ i1) with
    | none => none
    | some (i2, d2) => some { best := i1, second := i2, d1 := d1, d2 := d2 }

/-- Modelled from the spec: the glyph index of spec 4.3 as the device code, which is not
among the sources, is to compute it: "if `d2 == 0`, the index is `M-1` ... Otherwise index =
`floor(d1 / d2 * (M-1))`", with the result clamped to `[0, M-1]`. -/
def glyphIndex {D : Type} [LinearOrderedField D] [FloorRing D] (M : Int) (d1 d2 : D) : Int :=
  if d2 = 0 then M - 1 else max 0 (min (M - 1) ⌊d1 / d2 * ((M : D) - 1)⌋)

theorem getElem?_concat_some {D : Type} (ds : List D) (delta : D) (j : Nat) (d : D) :
    (ds ++ [delta])[j]? = some d ↔ ds[j]? = some d ∨ (j = ds.length ∧ d = delta) := by
  rcases Nat.lt_trichotomy j ds.length with h | h | h
  · rw [List.getElem?_append_left h]
    constructor
    · intro h1; exact Or.inl h1
    · rintro (h1 | ⟨h1, _⟩)
      · exact h1
      · omega
  · subst h
    simp [eq_comm]
  · have h1 : ds[j]? = none := List.getElem?_eq_none (by omega)
    have h2 : (ds ++ [delta])[j]? = none := List.getElem?_eq_none (by simp; omega)
    rw [h1, h2]
    constructor
    · intro h3; cases h3
    · rintro (h3 | ⟨h3, _⟩)
      · cases h3
      · omega

theorem lt_length_of_getElem?_some {D : Type} (ds : List D) (j : Nat) (d : D)
    (h : ds[j]? = some d) : j < ds.length := by
  by_contra hj
  rw [List.getElem?_eq_none (by omega)] at h
  cases h

/-- One iteration of the loop of `similar2` keeps the invariant. -/
theorem similar2_step_inv {D : Type} [LinearOrder D] (ds : List D) (delta : D)
    (s : Similar2State D) (h : Similar2Inv ds s) :
    Similar2Inv (ds ++ [delta]) (similar2_step delta ds.length s) := by
  have hc1 : s.c1 < ds.length := lt_length_of_getElem?_some ds _ _ h.d1
  have hc2 : s.c2 < ds.length := lt_length_of_getElem?_some ds _ _ h.d2
  unfold similar2_step
  by_cases hA : delta < s.dmin1
  · rw [if_pos hA]
    refine ⟨?_, ?_, ?_, ?_, ?_, ?_, ?_, ?_, ?_⟩
    · exact (getElem?_concat_some ds delta _ _).2 (Or.inr ⟨rfl, rfl⟩)
    · exact (getElem?_concat_some ds delta _ _).2 (Or.inl h.d1)
    · exact le_of_lt hA
    · intro j d hj
      rcases (getElem?_concat_some ds delta j d).1 hj with h1 | ⟨_, h1⟩
      · exact le_trans (le_of_lt hA) (h.min1 j d h1)
      · rw [h1]
    · intro j d hj hne
      rcases (getElem?_concat_some ds delta j d).1 hj with h1 | ⟨h1, _⟩
      · exact h.min1 j d h1
      · exact absurd h1 hne
    · intro j d hj hlt
      rcases (getElem?_concat_some ds delta j d).1 hj with h1 | ⟨h1, _⟩
      · exact lt_of_lt_of_le hA (h.min1 j d h1)
      · exact absurd h1 (Nat.ne_of_lt hlt)
    · intro j d hj hlt hne
      rcases (getElem?_concat_some ds delta j d).1 hj with h1 | ⟨h1, _⟩
      · exact h.first1 j d h1 hlt
      · exact absurd h1 hne
    · intro heq
      exact absurd heq (Nat.ne_of_gt hc1)
    · intro d0 hd0 _
      rcases (getElem?_concat_some ds delta 0 d0).1 hd0 with h1 | ⟨h1, _⟩
      · exact lt_of_lt_of_le hA (h.min1 0 d0 h1)
      · omega
  · rw [if_neg hA]
    have hA1 : s.dmin1 ≤ delta := not_lt.1 hA
    by_cases hB : delta < s.dmin2
    · rw [if_pos hB]
      refine ⟨?_, ?_, ?_, ?_, ?_, ?_, ?_, ?_, ?_⟩
      · exact (getElem?_concat_some ds delta _ _).2 (Or.inl h.d1)
      · exact (getElem?_concat_some ds delta _ _).2 (Or.inr ⟨rfl, rfl⟩)
      · exact hA1
      · intro j d hj
        rcases (getElem?_concat_some ds delta j d).1 hj with h1 | ⟨_, h1⟩
        · exact h.min1 j d h1
        · rw [h1]; exact hA1
      · intro j d hj hne
        rcases (getElem?_concat_some ds delta j d).1 hj with h1 | ⟨_, h1⟩
        · exact le_trans (le_of_lt hB) (h.min2 j d h1 hne)
        · rw [h1]
      · intro j d hj hlt
        rcases (getElem?_concat_some ds delta j d).1 hj with h1 | ⟨h1, _⟩
        · exact h.first1 j d h1 hlt
        · have : j < s.c1 := hlt
          omega
      · intro j d hj hlt hne
        rcases (getElem?_concat_some ds delta j d).1 hj with h1 | ⟨h1, _⟩
        · exact lt_of_lt_of_le hB (h.min2 j d h1 hne)
        · exact absurd h1 (Nat.ne_of_lt hlt)
      · intro heq
        exact absurd heq (Nat.ne_of_lt hc1)
      · intro d0 hd0 _
        rcases (getElem?_concat_some ds delta 0 d0).1 hd0 with h1 | ⟨h1, _⟩
        · apply h.diff d0 h1
          intro heq
          have h2 := h.d2
          rw [← heq, h.d1] at h2
          have h3 : s.dmin1 = s.dmin2 := Option.some.inj h2
          rw [← h3] at hB
          exact absurd hB (not_lt.2 hA1)
        · omega
    · rw [if_neg hB]
      have hB1 : s.dmin2 ≤ delta := not_lt.1 hB
      refine ⟨?_, ?_, h.le12, ?_, ?_, ?_, ?_, h.same, ?_⟩
      · exact (getElem?_concat_some ds delta _ _).2 (Or.inl h.d1)
      · exact (getElem?_concat_some ds delta _ _).2 (Or.inl h.d2)
      · intro j d hj
        rcases (getElem?_concat_some ds delta j d).1 hj with h1 | ⟨_, h1⟩
        · exact h.min1 j d h1
        · rw [h1]; exact hA1
      · intro j d hj hne
        rcases (getElem?_concat_some ds delta j d).1 hj with h1 | ⟨_, h1⟩
        · exact h.min2 j d h1 hne
        · rw [h1]; exact hB1
      · intro j d hj hlt
        rcases (getElem?_concat_some ds delta j d).1 hj with h1 | ⟨h1, _⟩
        · exact h.first1 j d h1 hlt
        · omega
      · intro j d hj hlt hne
        rcases (getElem?_concat_some ds delta j d).1 hj with h1 | ⟨h1, _⟩
        · exact h.first2 j d h1 hlt hne
        · omega
      · intro d0 hd0 hne
        rcases (getElem?_concat_some ds delta 0 d0).1 hd0 with h1 | ⟨h1, _⟩
        · exact h.diff d0 h1 hne
        · omega

/-- The loop of `similar2` keeps the invariant: started after the prefix `seen`, it ends with
the invariant on the whole palette. -/
theorem similar2_loop_inv {T D : Type} [LinearOrder D] (goal : T) (distance : T → T → D)
    (todo seen : List T) (s : Similar2State D)
    (h : Similar2Inv (seen.map (distance goal)) s) :
    Similar2Inv ((seen ++ todo).map (distance goal))
      (similar2_loop goal distance todo seen.length s) := by
  induction todo generalizing seen s with
  | nil => simpa [similar2_loop] using h
  | cons x xs ih =>
    have hstep := similar2_step_inv (seen.map (distance goal)) (distance goal x) s h
    have hmap : (seen ++ [x]).map (distance goal) = seen.map (distance goal) ++ [distance goal x] := by
      simp
    rw [List.length_map] at hstep
    rw [← hmap] at hstep
    have := ih (seen ++ [x]) _ hstep
    simpa [similar2_loop] using this

/-- The invariant holds initially, after only the first entry has been looked at. -/
theorem similar2_init_inv {D : Type} [LinearOrder D] (d0 : D) :
    Similar2Inv [d0] { dmin1 := d0, dmin2 := d0, c1 := 0, c2 := 0 } := by
  refine ⟨rfl, rfl, le_refl _, ?_, ?_, ?_, ?_, fun _ => rfl, ?_⟩
  · intro j d hj
    have hlt := lt_length_of_getElem?_some _ _ _ hj
    have h0 : j = 0 := by simpa using hlt
    subst h0
    simp at hj
    rw [hj]
  · intro j d hj hne
    have hlt := lt_length_of_getElem?_some _ _ _ hj
    have h0 : j = 0 := by simpa using hlt
    exact absurd h0 hne
  · intro j d _ hlt
    exact absurd hlt (Nat.not_lt_zero _)
  · intro j d _ hlt
    exact absurd hlt (Nat.not_lt_zero _)
  · intro d _ hne
    exact absurd rfl hne

/-- For a non-empty palette `similar2` terminates with a state that satisfies the invariant
on the whole palette. -/
theorem similar2_run_inv {T D : Type} [LinearOrder D] (goal : T) (palette : List T)
    (distance : T → T → D) (hne : palette ≠ []) :
    ∃ s, similar2_run goal palette distance = some s ∧
      Similar2Inv (palette.map (distance goal)) s := by
  cases palette with
  | nil => exact absurd rfl hne
  | cons p0 rest =>
    refine ⟨_, rfl, ?_⟩
    have := similar2_loop_inv goal distance rest [p0] _ (similar2_init_inv (distance goal p0))
    simpa using this

theorem getElem?_map_some {T D : Type} (f : T → D) (l : List T) (j : Nat) (d : D) :
    (l.map f)[j]? = some d ↔ ∃ p, l[j]? = some p ∧ f p = d := by
  rw [List.getElem?_map]
  cases l[j]? <;> simp

/-- What the invariant says of the result of `similar2` in terms of the palette entries. -/
theorem similar2_spec {T D : Type} [LinearOrder D] (goal : T) (palette : List T)
    (distance : T → T → D) (hne : palette ≠ []) :
    ∃ c1 c2 p1 p2, similar2 goal palette distance = some (c1, c2) ∧
      palette[c1]? = some p1 ∧ palette[c2]? = some p2 ∧
      distance goal p1 ≤ distance goal p2 ∧
      (∀ (j : Nat) (p : T), palette[j]? = some p → distance goal p1 ≤ distance goal p) ∧
      (∀ (j : Nat) (p : T), palette[j]? = some p → j ≠ c1 →
        distance goal p2 ≤ distance goal p) ∧
      (∀ (j : Nat) (p : T), palette[j]? = some p → j < c1 →
        distance goal p1 < distance goal p) ∧
      (∀ (j : Nat) (p : T), palette[j]? = some p → j < c2 → j ≠ c1 →
        distance goal p2 < distance goal p) ∧
      (c1 = c2 → c1 = 0) ∧
      (∀ p0, palette[0]? = some p0 → c1 ≠ c2 → distance goal p1 < distance goal p0) := by
  obtain ⟨s, hs, inv⟩ := similar2_run_inv goal palette distance hne
  obtain ⟨p1, hp1, hd1⟩ := (getElem?_map_some _ _ _ _).1 inv.d1
  obtain ⟨p2, hp2, hd2⟩ := (getElem?_map_some _ _ _ _).1 inv.d2
  refine ⟨s.c1, s.c2, p1, p2, ?_, hp1, hp2, ?_, ?_, ?_, ?_, ?_, inv.same, ?_⟩
  · simp [similar2, hs]
  · rw [hd1, hd2]; exact inv.le12
  · intro j p hj
    rw [hd1]
    exact inv.min1 j _ ((getElem?_map_some _ _ _ _).2 ⟨p, hj, rfl⟩)
  · intro j p hj hne1
    rw [hd2]
    exact inv.min2 j _ ((getElem?_map_some _ _ _ _).2 ⟨p, hj, rfl⟩) hne1
  · intro j p hj hlt
    rw [hd1]
    exact inv.first1 j _ ((getElem?_map_some _ _ _ _).2 ⟨p, hj, rfl⟩) hlt
  · intro j p hj hlt hne1
    rw [hd2]
    exact inv.first2 j _ ((getElem?_map_some _ _ _ _).2 ⟨p, hj, rfl⟩) hlt hne1
  · intro p0 hp0 hne1
    rw [hd1]
    exact inv.diff _ ((getElem?_map_some _ _ _ _).2 ⟨p0, hp0, rfl⟩) hne1

/-- The CIE76 distance, with the real square root, of two colours that differ in lightness
only. -/
theorem CIE76_distance_lightness (v w a b : ℝ) :
    CIE76_distance Real.sqrt { l := v, a := a, b := b } { l := w, a := a, b := b } = |v - w| := by
  unfold CIE76_distance
  simp
  exact Real.sqrt_sq_eq_abs _

theorem CIE76_darkGrey_Black : CIE76_distance Real.sqrt darkGrey Black = 25 := by
  unfold darkGrey Black
  rw [CIE76_distance_lightness]
  norm_num

theorem CIE76_darkGrey_White : CIE76_distance Real.sqrt darkGrey White = 75 := by
  unfold darkGrey White
  rw [CIE76_distance_lightness]
  norm_num

theorem CIE76_White_Black : CIE76_distance Real.sqrt White Black = 100 := by
  unfold White Black
  rw [CIE76_distance_lightness]
  norm_num

theorem CIE76_White_White : CIE76_distance Real.sqrt White White = 0 := by
  unfold White
  rw [CIE76_distance_lightness]
  norm_num

/-- `similar2` in the two-colour scenario for the sample `L = 25`. -/
theorem similar2_scenario_darkGrey :
    similar2 darkGrey [Black, White] (CIE76_distance Real.sqrt) = some (0, 0) := by
  norm_num [similar2, similar2_run, similar2_loop, similar2_step, CIE76_darkGrey_Black,
    CIE76_darkGrey_White]

/-- `similar2` in the two-colour scenario for the sample White. -/
theorem similar2_scenario_White :
    similar2 White [Black, White] (CIE76_distance Real.sqrt) = some (1, 0) := by
  norm_num [similar2, similar2_run, similar2_loop, similar2_step, CIE76_White_Black,
    CIE76_White_White]

/-- The locals of `getCell` in the two-colour scenario for the sample `L = 25`. -/
theorem getCell_locals_scenario_darkGrey (w h : Nat) :
    (scenarioCharmap w h).getCell_locals darkGrey (CIE76_distance Real.sqrt) =
      some { bg_pos := 0, fg_pos := 0, bg_delta := 25, fg_delta := 25, char_pos := 1,
             cell_x := 1 * (scenarioCharmap w h).m_cellw, cell_y := 0 } := by
  have hs : similar2 darkGrey (scenarioCharmap w h).m_colormap (CIE76_distance Real.sqrt)
      = some (0, 0) := similar2_scenario_darkGrey
  have hn : (scenarioCharmap w h).m_nchars = 2 := rfl
  have hcp : char_pos 2 (25 : ℝ) 25 = 1 := by norm_num [char_pos, truncToInt]
  have hcol : (scenarioCharmap w h).m_colormap = [Black, White] := rfl
  unfold Charmap.getCell_locals
  rw [hs, hcol]
  simp [Charmap.calc_pos, Charmap.cellRect, CIE76_darkGrey_Black, hn, hcp]

/-- The locals of `getCell` in the two-colour scenario for the sample White. -/
theorem getCell_locals_scenario_White (w h : Nat) :
    (scenarioCharmap w h).getCell_locals White (CIE76_distance Real.sqrt) =
      some { bg_pos := 1, fg_pos := 0, bg_delta := 0, fg_delta := 100, char_pos := 0,
             cell_x := 0, cell_y := (1 * 2 + 0) * (scenarioCharmap w h).m_cellh } := by
  have hs : similar2 White (scenarioCharmap w h).m_colormap (CIE76_distance Real.sqrt)
      = some (1, 0) := similar2_scenario_White
  have hn : (scenarioCharmap w h).m_nchars = 2 := rfl
  have hc : (scenarioCharmap w h).m_ncolors = 2 := rfl
  have hcp : char_pos 2 (0 : ℝ) 100 = 0 := by norm_num [char_pos, truncToInt]
  have hcol : (scenarioCharmap w h).m_colormap = [Black, White] := rfl
  unfold Charmap.getCell_locals
  rw [hs, hcol]
  simp [Charmap.calc_pos, Charmap.cellRect, CIE76_White_Black, CIE76_White_White, hn, hc, hcp]

/-! ## Lemmas on the glyph index -/

theorem truncToInt_of_nonneg {D : Type} [LinearOrderedField D] [FloorRing D] (v : D)
    (h : 0 ≤ v) : truncToInt v = ⌊v⌋ := by
  unfold truncToInt
  rw [if_pos h]

theorem truncToInt_intCast {D : Type} [LinearOrderedField D] [FloorRing D] (n : Int) :
    truncToInt (n : D) = n := by
  unfold truncToInt
  split <;> simp

/-- When the second distance is zero the glyph index is the last one. -/
theorem char_pos_of_eq_zero {D : Type} [LinearOrderedField D] [FloorRing D] (M : Int)
    (d1 d2 : D) (h : d2 = 0) : char_pos M d1 d2 = M - 1 := by
  unfold char_pos
  rw [if_pos h, truncToInt_intCast]

/-- When the second distance is positive and the first is not negative, the glyph index is the
floor of the scaled ratio. -/
theorem char_pos_of_pos {D : Type} [LinearOrderedField D] [FloorRing D] (M : Int)
    (d1 d2 : D) (hM : 1 ≤ M) (h1 : 0 ≤ d1) (h2 : 0 < d2) :
    char_pos M d1 d2 = ⌊d1 / d2 * ((M - 1 : Int) : D)⌋ := by
  unfold char_pos
  rw [if_neg (ne_of_gt h2)]
  apply truncToInt_of_nonneg
  have hM1 : (0 : D) ≤ ((M - 1 : Int) : D) := by
    exact_mod_cast (by omega : (0 : Int) ≤ M - 1)
  exact mul_nonneg (div_nonneg h1 (le_of_lt h2)) hM1

theorem char_pos_nonneg {D : Type} [LinearOrderedField D] [FloorRing D] (M : Int)
    (d1 d2 : D) (hM : 1 ≤ M) (h1 : 0 ≤ d1) (h2 : 0 ≤ d2) : 0 ≤ char_pos M d1 d2 := by
  rcases eq_or_lt_of_le h2 with h0 | hpos
  · rw [char_pos_of_eq_zero M d1 d2 h0.symm]
    omega
  · rw [char_pos_of_pos M d1 d2 hM h1 hpos]
    apply Int.floor_nonneg.2
    have hM1 : (0 : D) ≤ ((M - 1 : Int) : D) := by
      exact_mod_cast (by omega : (0 : Int) ≤ M - 1)
    exact mul_nonneg (div_nonneg h1 (le_of_lt hpos)) hM1

/-- For a positive second distance the glyph index is in range exactly when the scaled ratio
stays below `M`. -/
theorem char_pos_le_iff {D : Type} [LinearOrderedField D] [FloorRing D] (M : Int)
    (d1 d2 : D) (hM : 1 ≤ M) (h1 : 0 ≤ d1) (h2 : 0 < d2) :
    char_pos M d1 d2 ≤ M - 1 ↔ d1 * ((M - 1 : Int) : D) < d2 * (M : D) := by
  rw [char_pos_of_pos M d1 d2 hM h1 h2]
  have key : ⌊d1 / d2 * ((M - 1 : Int) : D)⌋ ≤ M - 1 ↔
      d1 / d2 * ((M - 1 : Int) : D) < (M : D) := by
    rw [← Int.lt_add_one_iff, Int.floor_lt]
    simp
  rw [key, div_mul_eq_mul_div, div_lt_iff₀ h2, mul_comm (M : D) d2]

theorem char_pos_le_of_le {D : Type} [LinearOrderedField D] [FloorRing D] (M : Int)
    (d1 d2 : D) (hM : 1 ≤ M) (h1 : 0 ≤ d1) (h12 : d1 ≤ d2) : char_pos M d1 d2 ≤ M - 1 := by
  rcases eq_or_lt_of_le (le_trans h1 h12) with h0 | hpos
  · rw [char_pos_of_eq_zero M d1 d2 h0.symm]
  · rw [char_pos_le_iff M d1 d2 hM h1 hpos]
    have hM1 : (0 : D) ≤ ((M - 1 : Int) : D) := by
      exact_mod_cast (by omega : (0 : Int) ≤ M - 1)
    have hlt : ((M - 1 : Int) : D) < (M : D) := by
      exact_mod_cast (by omega : M - 1 < M)
    calc d1 * ((M - 1 : Int) : D) ≤ d2 * ((M - 1 : Int) : D) :=
          mul_le_mul_of_nonneg_right h12 hM1
      _ < d2 * (M : D) := mul_lt_mul_of_pos_left hlt hpos

/-! ## Lemmas on the rounding to `float` -/

/-- A value strictly within one half of an integer rounds to that integer. -/
theorem roundHalfEven_eq (q : ℚ) (n : Int) (h1 : (n : ℚ) - 1 / 2 < q)
    (h2 : q < (n : ℚ) + 1 / 2) : roundHalfEven q = n := by
  unfold roundHalfEven
  by_cases hq : (n : ℚ) ≤ q
  · have hf : ⌊q⌋ = n := by
      rw [Int.floor_eq_iff]
      exact ⟨hq, by linarith⟩
    rw [hf, if_pos (by linarith)]
  · have hq2 : q < n := not_le.1 hq
    have hf : ⌊q⌋ = n - 1 := by
      rw [Int.floor_eq_iff]
      push_cast
      constructor <;> linarith
    rw [hf]
    push_cast
    rw [if_neg (by linarith), if_pos (by linarith)]
    ring

theorem roundHalfEven_nonneg (q : ℚ) (h : 0 ≤ q) : 0 ≤ roundHalfEven q := by
  have hf : 0 ≤ ⌊q⌋ := Int.floor_nonneg.2 h
  unfold roundHalfEven
  split
  · exact hf
  · split
    · omega
    · split <;> omega

/-- An integer is rounded to itself. -/
theorem roundHalfEven_intCast (n : Int) : roundHalfEven (n : ℚ) = n :=
  roundHalfEven_eq _ n (by linarith) (by linarith)

/-- The stored exponent of a positive value from the binade that contains it. -/
theorem f32_exponent_eq (x : ℚ) (e : Int) (hx : 0 < x) (he : -126 ≤ e)
    (h1 : (2 : ℚ) ^ e ≤ x) (h2 : x < (2 : ℚ) ^ (e + 1)) : f32_exponent x = e := by
  unfold f32_exponent
  rw [abs_of_pos hx]
  have hlog : Int.log 2 x = e := by
    apply le_antisymm
    · have := (Int.lt_zpow_iff_log_lt (b := 2) (by norm_num) hx).1 (by exact_mod_cast h2)
      omega
    · exact (Int.zpow_le_iff_le_log (b := 2) (by norm_num) hx).1 (by exact_mod_cast h1)
  rw [hlog]
  exact max_eq_left he

/-- Rounding to `float` from a certificate: the binade `e` of `x` and the integer `n` nearest
to `x / 2^(e - 23)`. -/
theorem round_f32_eq (x : ℚ) (e n : Int) (hx : 0 < x) (he : -126 ≤ e)
    (h1 : (2 : ℚ) ^ e ≤ x) (h2 : x < (2 : ℚ) ^ (e + 1))
    (h3 : (n : ℚ) - 1 / 2 < x / 2 ^ (e - 23)) (h4 : x / 2 ^ (e - 23) < (n : ℚ) + 1 / 2) :
    round_f32 x = (n : ℚ) * 2 ^ (e - 23) := by
  unfold round_f32
  rw [f32_exponent_eq x e hx he h1 h2, roundHalfEven_eq _ n h3 h4]

/-- Rounding to `float` keeps the sign of a non-negative value. -/
theorem round_f32_nonneg (x : ℚ) (h : 0 ≤ x) : 0 ≤ round_f32 x := by
  unfold round_f32
  have hpos : (0 : ℚ) < 2 ^ (f32_exponent x - 23) := zpow_pos (by norm_num) _
  have hq : 0 ≤ x / 2 ^ (f32_exponent x - 23) := div_nonneg h (le_of_lt hpos)
  have hr : (0 : ℚ) ≤ (roundHalfEven (x / 2 ^ (f32_exponent x - 23)) : ℚ) := by
    exact_mod_cast roundHalfEven_nonneg _ hq
  exact mul_nonneg hr (le_of_lt hpos)

/-- A non-negative `float` below `2^31` converts to its floor. -/
theorem f32_to_int_of_nonneg (v : ℚ) (h0 : 0 ≤ v) (h : v < 2 ^ 31) :
    f32_to_int v = some ⌊v⌋ := by
  unfold f32_to_int
  rw [truncToInt_of_nonneg v h0]
  have hf0 : 0 ≤ ⌊v⌋ := Int.floor_nonneg.2 h0
  have hf1 : ⌊v⌋ < 2 ^ 31 := by
    rw [Int.floor_lt]
    exact_mod_cast h
  rw [if_pos ⟨by omega, hf1⟩]

/-- The glyph index for `float` when nothing overflows: the floor of the rounded product of
the rounded quotient. -/
theorem char_pos_f32_of_pos (M : Int) (d1 d2 : ℚ) (hM : 1 ≤ M) (h1 : 0 ≤ d1) (h2 : 0 < d2)
    (hq : round_f32 (d1 / d2) ≤ f32_max)
    (hi : round_f32 (round_f32 (d1 / d2) * round_f32 ((M - 1 : Int) : ℚ)) < 2 ^ 31) :
    char_pos_f32 M d1 d2 =
      some ⌊round_f32 (round_f32 (d1 / d2) * round_f32 ((M - 1 : Int) : ℚ))⌋ := by
  have hq0 : 0 ≤ round_f32 (d1 / d2) := round_f32_nonneg _ (div_nonneg h1 (le_of_lt h2))
  have hm0 : 0 ≤ round_f32 ((M - 1 : Int) : ℚ) :=
    round_f32_nonneg _ (by exact_mod_cast (by omega : (0 : Int) ≤ M - 1))
  have hp0 : 0 ≤ round_f32 (round_f32 (d1 / d2) * round_f32 ((M - 1 : Int) : ℚ)) :=
    round_f32_nonneg _ (mul_nonneg hq0 hm0)
  have hmax : (2 : ℚ) ^ 31 ≤ f32_max := by
    unfold f32_max
    norm_num
  have hto1 : to_f32 (d1 / d2) = some (round_f32 (d1 / d2)) := by
    unfold to_f32
    rw [abs_of_nonneg hq0, if_pos hq]
  have hto2 : to_f32 (round_f32 (d1 / d2) * round_f32 ((M - 1 : Int) : ℚ)) =
      some (round_f32 (round_f32 (d1 / d2) * round_f32 ((M - 1 : Int) : ℚ))) := by
    unfold to_f32
    rw [abs_of_nonneg hp0, if_pos (le_trans (le_of_lt hi) hmax)]
  unfold char_pos_f32
  rw [if_neg (ne_of_gt h2), hto1, Option.some_bind, hto2, Option.some_bind]
  exact f32_to_int_of_nonneg _ hp0 hi

/-- The `float` nearest to the quotient `0x1.f1c71cp+2 / 10` is `13048946 * 2^(-24)`. -/
theorem round_f32_quotient_example :
    round_f32 ((16311182 / 2097152 : ℚ) / 10) = 13048946 / 16777216 := by
  rw [round_f32_eq _ (-1) 13048946 (by norm_num) (by norm_num) (by norm_num) (by norm_num)
    (by norm_num) (by norm_num)]
  norm_num

/-- The value 9 is a `float`. -/
theorem round_f32_nine : round_f32 (((10 - 1 : Int) : ℚ)) = 9 := by
  rw [round_f32_eq _ 3 9437184 (by norm_num) (by norm_num) (by norm_num) (by norm_num)
    (by norm_num) (by norm_num)]
  norm_num

/-- The `float` nearest to the product `13048946 * 2^(-24) * 9 = 7 + 2^(-23)` is 7. -/
theorem round_f32_product_example :
    round_f32 ((13048946 / 16777216 : ℚ) * 9) = 7 := by
  rw [round_f32_eq _ 2 14680064 (by norm_num) (by norm_num) (by norm_num) (by norm_num)
    (by norm_num) (by norm_num)]
  norm_num

/-- The distance `0x1.f1c71cp+2 = 16311182 * 2^(-21)` is a `float`. -/
theorem round_f32_distance_example :
    round_f32 (16311182 / 2097152 : ℚ) = 16311182 / 2097152 := by
  rw [round_f32_eq _ 2 16311182 (by norm_num) (by norm_num) (by norm_num) (by norm_num)
    (by norm_num) (by norm_num)]
  norm_num

/-- The distance 10 is a `float`. -/
theorem round_f32_ten : round_f32 (10 : ℚ) = 10 := by
  rw [round_f32_eq _ 3 10485760 (by norm_num) (by norm_num) (by norm_num) (by norm_num)
    (by norm_num) (by norm_num)]
  norm_num

/-- The quotient `5 / 10` is a `float`. -/
theorem round_f32_half_example : round_f32 ((5 : ℚ) / 10) = 5 / 10 := by
  rw [round_f32_eq _ (-1) 8388608 (by norm_num) (by norm_num) (by norm_num) (by norm_num)
    (by norm_num) (by norm_num)]
  norm_num

/-- The product `5 / 10 * 9` is a `float`. -/
theorem round_f32_half_product_example : round_f32 ((5 : ℚ) / 10 * 9) = 5 / 10 * 9 := by
  rw [round_f32_eq _ 2 9437184 (by norm_num) (by norm_num) (by norm_num) (by norm_num)
    (by norm_num) (by norm_num)]
  norm_num

/-! ## Lemmas on the cell geometry -/

/-- Truncating division of a size by a positive count: the quotient is not negative and
`count` cells of that size fit. -/
theorem tdiv_size_bounds (size : Nat) (count : Int) (h : 0 < count) :
    0 ≤ Int.tdiv (size : Int) count ∧ count * Int.tdiv (size : Int) count ≤ (size : Int) := by
  rw [Int.tdiv_eq_ediv (Int.ofNat_nonneg size) (le_of_lt h)]
  exact ⟨Int.ediv_nonneg (Int.ofNat_nonneg size) (le_of_lt h),
    Int.mul_ediv_self_le (ne_of_gt h)⟩

/-- A position that lies in the blocks of two indices (blocks of positive size `c`) forces the
indices to be equal. -/
theorem block_index_unique (c p i k : Int) (hc : 0 < c)
    (hi1 : i * c ≤ p) (hi2 : p < i * c + c) (hk1 : k * c ≤ p) (hk2 : p < k * c + c) :
    i = k := by
  rcases lt_trichotomy i k with h | h | h
  · exfalso
    have h1 : (i + 1) * c ≤ k * c := mul_le_mul_of_nonneg_right (by omega) (le_of_lt hc)
    linarith
  · exact h
  · exfalso
    have h1 : (k + 1) * c ≤ i * c := mul_le_mul_of_nonneg_right (by omega) (le_of_lt hc)
    linarith

/-- The block index of a position inside `count` blocks of positive size `c`. -/
theorem block_index_exists (c count p : Int) (hc : 0 < c) (hp0 : 0 ≤ p) (hp : p < count * c) :
    0 ≤ p / c ∧ p / c < count ∧ p / c * c ≤ p ∧ p < p / c * c + c := by
  refine ⟨Int.ediv_nonneg hp0 (le_of_lt hc), Int.ediv_lt_of_lt_mul hc hp,
    Int.ediv_mul_le p (ne_of_gt hc), ?_⟩
  have := Int.lt_ediv_add_one_mul_self p hc
  linarith

/-! ## The claims -/

/-- C1: for every palette with at least 2 entries, every goal colour and every distance
function, `similar2` returns positions `c1`, `c2` of palette entries `p1`, `p2` with
`distance(goal, p1) ≤ distance(goal, p2)`, and `distance(goal, p2) ≤ distance(goal, p)` for
every palette entry `p` at a position other than `c1` and `c2`. -/
theorem similar2_nearest_pair {T D : Type} [LinearOrder D] (goal : T) (palette : List T)
    (distance : T → T → D) (h : 2 ≤ palette.length) :
    ∃ c1 c2 p1 p2, similar2 goal palette distance = some (c1, c2) ∧
      palette[c1]? = some p1 ∧ palette[c2]? = some p2 ∧
      distance goal p1 ≤ distance goal p2 ∧
      ∀ (j : Nat) (p : T), palette[j]? = some p → j ≠ c1 → j ≠ c2 →
        distance goal p2 ≤ distance goal p := by
  have hne : palette ≠ [] := by
    intro h0
    subst h0
    simp at h
  obtain ⟨c1, c2, p1, p2, hs, hp1, hp2, hle, _, hmin2, _⟩ :=
    similar2_spec goal palette distance hne
  exact ⟨c1, c2, p1, p2, hs, hp1, hp2, hle, fun j p hj h1 _ => hmin2 j p hj h1⟩

/-- Witness of C1 on the palette `[5, 7, 3, 4]` of integers with goal `3` and the distance
`|a - b|`. -/
theorem similar2_nearest_pair_witness :
    2 ≤ ([5, 7, 3, 4] : List Int).length ∧
    ∃ c1 c2 p1 p2, similar2 (3 : Int) [5, 7, 3, 4] (fun a b => |a - b|) = some (c1, c2) ∧
      ([5, 7, 3, 4] : List Int)[c1]? = some p1 ∧ ([5, 7, 3, 4] : List Int)[c2]? = some p2 ∧
      |(3 : Int) - p1| ≤ |(3 : Int) - p2| ∧
      ∀ (j : Nat) (p : Int), ([5, 7, 3, 4] : List Int)[j]? = some p → j ≠ c1 → j ≠ c2 →
        |(3 : Int) - p2| ≤ |(3 : Int) - p| :=
  ⟨by decide, similar2_nearest_pair (3 : Int) [5, 7, 3, 4] (fun a b => |a - b|) (by decide)⟩

/-- C2 (fails on the code): on the two-entry palette `[Black, White]` with the goal
`L = 25` and the CIE76 distance, `similar2` returns position 0 for both the closest and the
second-closest entry, not the two distinct positions 0 and 1. -/
theorem similar2_two_entries_same_position :
    similar2 darkGrey [Black, White] (CIE76_distance Real.sqrt) = some (0, 0) :=
  similar2_scenario_darkGrey

/-- C3 (fails on the code): in the two-colour scenario (palette `[Black, White]`, ramp of
length 2, CIE76 distance, any atlas size) the sample `L = 25` makes `getCell` take Black
(position 0, distance 25) as background and again Black (position 0, distance 25) as
foreground, glyph index `25 / 25 * 1 = 1`, hence the cell at `cell_x = 1 * cellW`,
`cell_y = 0`; not White as foreground, glyph index 0 and `cell_y = (0 * 2 + 1) * cellH`. -/
theorem getCell_darkGrey_picks_black_twice (w h : Nat) :
    ∃ s, (scenarioCharmap w h).getCell_locals darkGrey (CIE76_distance Real.sqrt) = some s ∧
      s.bg_pos = 0 ∧ s.bg_delta = 25 ∧ s.fg_pos = 0 ∧ s.fg_delta = 25 ∧ s.char_pos = 1 ∧
      s.cell_x = 1 * (scenarioCharmap w h).cellW ∧ s.cell_y = 0 ∧
      (scenarioCharmap w h).getCell darkGrey (CIE76_distance Real.sqrt) =
        some { x := 1 * (scenarioCharmap w h).cellW, y := 0,
               width := (scenarioCharmap w h).cellW, height := (scenarioCharmap w h).cellH } := by
  refine ⟨_, getCell_locals_scenario_darkGrey w h, rfl, rfl, rfl, rfl, rfl, rfl, rfl, ?_⟩
  unfold Charmap.getCell
  rw [getCell_locals_scenario_darkGrey]
  simp [Charmap.cellRect, Charmap.cellW, Charmap.cellH]

/-- C4, refuted as stated: with a 16 x 32 atlas (cells of 8 x 8) in the two-colour scenario,
for the sample White the glyph index of `getCell` is not 1 and `cell_x` is not
`1 * cellW`. -/
theorem getCell_White_not_last_glyph :
    ∃ s, (scenarioCharmap 16 32).getCell_locals White (CIE76_distance Real.sqrt) = some s ∧
      s.char_pos ≠ 1 ∧ s.cell_x ≠ 1 * (scenarioCharmap 16 32).cellW := by
  refine ⟨_, getCell_locals_scenario_White 16 32, ?_, ?_⟩
  · decide
  · decide

/-- C4, amended: in the two-colour scenario (any atlas size) the sample White is at distance
0 from White and 100 from Black, so `getCell` takes White (position 1) as background, Black
(position 0) as foreground and glyph index `0 / 100 * 1 = 0`: the cell at `cell_x = 0`,
`cell_y = (1 * 2 + 0) * cellH`. -/
theorem getCell_White_first_glyph (w h : Nat) :
    ∃ s, (scenarioCharmap w h).getCell_locals White (CIE76_distance Real.sqrt) = some s ∧
      s.bg_pos = 1 ∧ s.bg_delta = 0 ∧ s.fg_pos = 0 ∧ s.fg_delta = 100 ∧ s.char_pos = 0 ∧
      s.cell_x = 0 ∧ s.cell_y = (1 * 2 + 0) * (scenarioCharmap w h).cellH ∧
      (scenarioCharmap w h).getCell White (CIE76_distance Real.sqrt) =
        some { x := 0, y := (1 * 2 + 0) * (scenarioCharmap w h).cellH,
               width := (scenarioCharmap w h).cellW, height := (scenarioCharmap w h).cellH } := by
  refine ⟨_, getCell_locals_scenario_White w h, rfl, rfl, rfl, rfl, rfl, rfl, rfl, ?_⟩
  unfold Charmap.getCell
  rw [getCell_locals_scenario_White]
  have hc : (scenarioCharmap w h).m_ncolors = 2 := rfl
  simp [Charmap.cellRect, Charmap.cellW, Charmap.cellH, hc]

/-- C5: for every non-empty palette, goal colour and distance function, the position `c1`
returned by `similar2` holds an entry at minimum distance from the goal, every entry at a
position below `c1` is strictly farther from the goal, and so every entry at the same
(minimum) distance has a position of at least `c1`. -/
theorem similar2_tie_break {T D : Type} [LinearOrder D] (goal : T) (palette : List T)
    (distance : T → T → D) (hne : palette ≠ []) :
    ∃ c1 c2 p1, similar2 goal palette distance = some (c1, c2) ∧
      palette[c1]? = some p1 ∧
      (∀ (j : Nat) (p : T), palette[j]? = some p → distance goal p1 ≤ distance goal p) ∧
      (∀ (j : Nat) (p : T), palette[j]? = some p → j < c1 →
        distance goal p1 < distance goal p) ∧
      (∀ (j : Nat) (p : T), palette[j]? = some p → distance goal p = distance goal p1 →
        c1 ≤ j) := by
  obtain ⟨c1, c2, p1, p2, hs, hp1, _, _, hmin1, _, hfirst1, _⟩ :=
    similar2_spec goal palette distance hne
  refine ⟨c1, c2, p1, hs, hp1, hmin1, hfirst1, ?_⟩
  intro j p hj heq
  by_contra hlt
  have := hfirst1 j p hj (Nat.lt_of_not_le hlt)
  rw [heq] at this
  exact lt_irrefl _ this

/-- Witness of C5 on the palette `[5, 1, 3, 5, 1]` of integers with goal `3` and the distance
`|a - b|`, where positions 0, 1, 3 and 4 are all at distance 2. -/
theorem similar2_tie_break_witness :
    ([5, 1, 3, 5, 1] : List Int) ≠ [] ∧
    ∃ c1 c2 p1, similar2 (3 : Int) [5, 1, 3, 5, 1] (fun a b => |a - b|) = some (c1, c2) ∧
      ([5, 1, 3, 5, 1] : List Int)[c1]? = some p1 ∧
      (∀ (j : Nat) (p : Int), ([5, 1, 3, 5, 1] : List Int)[j]? = some p →
        |(3 : Int) - p1| ≤ |(3 : Int) - p|) ∧
      (∀ (j : Nat) (p : Int), ([5, 1, 3, 5, 1] : List Int)[j]? = some p → j < c1 →
        |(3 : Int) - p1| < |(3 : Int) - p|) ∧
      (∀ (j : Nat) (p : Int), ([5, 1, 3, 5, 1] : List Int)[j]? = some p →
        |(3 : Int) - p| = |(3 : Int) - p1| → c1 ≤ j) :=
  ⟨by decide, similar2_tie_break (3 : Int) [5, 1, 3, 5, 1] (fun a b => |a - b|) (by decide)⟩

/-- C7: for every valid triple `0 ≤ g < M`, `0 ≤ b, f < N` the rectangle used by `getCell` has
origin `(g * cellW, (b * N + f) * cellH)` and size `cellW x cellH` with
`cellW = atlasWidth / M` and `cellH = atlasHeight / (N * N)`, and lies inside the atlas. -/
theorem cellRect_inside_atlas {T : Type} (cm : Charmap T) (g b f : Int)
    (hg0 : 0 ≤ g) (hg : g < cm.m_nchars) (hb0 : 0 ≤ b) (hb : b < cm.m_ncolors)
    (hf0 : 0 ≤ f) (hf : f < cm.m_ncolors) :
    cm.cellRect g b f =
      { x := g * cm.cellW, y := (b * cm.m_ncolors + f) * cm.cellH,
        width := cm.cellW, height := cm.cellH } ∧
    cm.cellW = Int.tdiv (cm.charmap_width : Int) cm.m_nchars ∧
    cm.cellH = Int.tdiv (cm.charmap_height : Int) (cm.m_ncolors * cm.m_ncolors) ∧
    0 ≤ (cm.cellRect g b f).x ∧ 0 ≤ (cm.cellRect g b f).y ∧
    (cm.cellRect g b f).x + (cm.cellRect g b f).width ≤ (cm.charmap_width : Int) ∧
    (cm.cellRect g b f).y + (cm.cellRect g b f).height ≤ (cm.charmap_height : Int) := by
  have hM : 0 < cm.m_nchars := lt_of_le_of_lt hg0 hg
  have hN : 0 < cm.m_ncolors := lt_of_le_of_lt hb0 hb
  have hNN : 0 < cm.m_ncolors * cm.m_ncolors := mul_pos hN hN
  obtain ⟨hw0, hw⟩ := tdiv_size_bounds cm.charmap_width cm.m_nchars hM
  obtain ⟨hh0, hh⟩ := tdiv_size_bounds cm.charmap_height (cm.m_ncolors * cm.m_ncolors) hNN
  have hrow0 : 0 ≤ b * cm.m_ncolors + f :=
    add_nonneg (mul_nonneg hb0 (le_of_lt hN)) hf0
  have hrow : b * cm.m_ncolors + f + 1 ≤ cm.m_ncolors * cm.m_ncolors := by
    have : (b + 1) * cm.m_ncolors ≤ cm.m_ncolors * cm.m_ncolors :=
      mul_le_mul_of_nonneg_right (by omega) (le_of_lt hN)
    linarith
  refine ⟨rfl, rfl, rfl, ?_, ?_, ?_, ?_⟩
  · exact mul_nonneg hg0 hw0
  · exact mul_nonneg hrow0 hh0
  · show g * cm.m_cellw + cm.m_cellw ≤ (cm.charmap_width : Int)
    have h1 : (g + 1) * cm.m_cellw ≤ cm.m_nchars * cm.m_cellw :=
      mul_le_mul_of_nonneg_right (by omega) hw0
    have h2 : cm.m_nchars * cm.m_cellw ≤ (cm.charmap_width : Int) := hw
    linarith
  · show (b * cm.m_ncolors + f) * cm.m_cellh + cm.m_cellh ≤ (cm.charmap_height : Int)
    have h1 : (b * cm.m_ncolors + f + 1) * cm.m_cellh ≤
        cm.m_ncolors * cm.m_ncolors * cm.m_cellh :=
      mul_le_mul_of_nonneg_right hrow hh0
    have h2 : cm.m_ncolors * cm.m_ncolors * cm.m_cellh ≤ (cm.charmap_height : Int) := hh
    linarith

/-- Witness of C7: the last cell (glyph 1, background 1, foreground 1) of the two-colour
scenario with an atlas of 17 x 35 pixels, which the cell grid does not divide evenly. -/
theorem cellRect_inside_atlas_witness :
    ((0 : Int) ≤ 1 ∧ (1 : Int) < (scenarioCharmap 17 35).m_nchars ∧
      (1 : Int) < (scenarioCharmap 17 35).m_ncolors) ∧
    ((scenarioCharmap 17 35).cellRect 1 1 1 =
      { x := 1 * (scenarioCharmap 17 35).cellW,
        y := (1 * (scenarioCharmap 17 35).m_ncolors + 1) * (scenarioCharmap 17 35).cellH,
        width := (scenarioCharmap 17 35).cellW, height := (scenarioCharmap 17 35).cellH } ∧
    (scenarioCharmap 17 35).cellW =
      Int.tdiv ((scenarioCharmap 17 35).charmap_width : Int) (scenarioCharmap 17 35).m_nchars ∧
    (scenarioCharmap 17 35).cellH =
      Int.tdiv ((scenarioCharmap 17 35).charmap_height : Int)
        ((scenarioCharmap 17 35).m_ncolors * (scenarioCharmap 17 35).m_ncolors) ∧
    0 ≤ ((scenarioCharmap 17 35).cellRect 1 1 1).x ∧
    0 ≤ ((scenarioCharmap 17 35).cellRect 1 1 1).y ∧
    ((scenarioCharmap 17 35).cellRect 1 1 1).x + ((scenarioCharmap 17 35).cellRect 1 1 1).width
      ≤ ((scenarioCharmap 17 35).charmap_width : Int) ∧
    ((scenarioCharmap 17 35).cellRect 1 1 1).y + ((scenarioCharmap 17 35).cellRect 1 1 1).height
      ≤ ((scenarioCharmap 17 35).charmap_height : Int)) :=
  ⟨⟨by decide, by decide, by decide⟩,
    cellRect_inside_atlas (scenarioCharmap 17 35) 1 1 1 (by decide) (by decide) (by decide)
      (by decide) (by decide) (by decide)⟩

/-- C9: over the reals, with the real square root, `CIE76_distance` is not negative, is
symmetric, and is zero if and only if the two colours have equal components. -/
theorem CIE76_distance_is_metric (x y : lab_t ℝ) :
    0 ≤ CIE76_distance Real.sqrt x y ∧
    CIE76_distance Real.sqrt x y = CIE76_distance Real.sqrt y x ∧
    (CIE76_distance Real.sqrt x y = 0 ↔ (x.l = y.l ∧ x.a = y.a ∧ x.b = y.b)) := by
  unfold CIE76_distance
  refine ⟨Real.sqrt_nonneg _, ?_, ?_⟩
  · congr 1
    ring
  · rw [Real.sqrt_eq_zero']
    constructor
    · intro h
      have nl := sq_nonneg (x.l - y.l)
      have na := sq_nonneg (x.a - y.a)
      have nb := sq_nonneg (x.b - y.b)
      have hl : (x.l - y.l) ^ 2 = 0 := by linarith
      have ha : (x.a - y.a) ^ 2 = 0 := by linarith
      have hb : (x.b - y.b) ^ 2 = 0 := by linarith
      exact ⟨sub_eq_zero.1 (pow_eq_zero_iff (by decide) |>.1 hl),
        sub_eq_zero.1 (pow_eq_zero_iff (by decide) |>.1 ha),
        sub_eq_zero.1 (pow_eq_zero_iff (by decide) |>.1 hb)⟩
    · rintro ⟨hl, ha, hb⟩
      rw [hl, ha, hb]
      simp

/-- C10: in the render loop the block written for source pixel `(x, y)` is the rectangle with
origin `(x * cellW, y * cellH)` and size `cellW x cellH`; for `cellW > 0`, `cellH > 0` and a
source of `picw x pich` pixels every block lies inside the canvas of
`(picw * cellW) x (pich * cellH)` pixels, blocks of two distinct source pixels share no pixel,
and every canvas pixel lies in the block of exactly one source pixel. -/
theorem roi_blocks_tile_canvas (picw pich cellw cellh : Int) (hw : 0 < cellw) (hh : 0 < cellh) :
    (∀ x y : Int, isSourcePixel picw pich x y →
      roi x y cellw cellh = { x := x * cellw, y := y * cellh, width := cellw, height := cellh } ∧
      0 ≤ (roi x y cellw cellh).x ∧ 0 ≤ (roi x y cellw cellh).y ∧
      (roi x y cellw cellh).x + (roi x y cellw cellh).width ≤ art_width picw cellw ∧
      (roi x y cellw cellh).y + (roi x y cellw cellh).height ≤ art_height pich cellh) ∧
    (∀ x y x2 y2 : Int, isSourcePixel picw pich x y → isSourcePixel picw pich x2 y2 →
      (x, y) ≠ (x2, y2) →
      ∀ px py : Int, ¬ ((roi x y cellw cellh).contains px py ∧
        (roi x2 y2 cellw cellh).contains px py)) ∧
    (∀ px py : Int, 0 ≤ px → px < art_width picw cellw → 0 ≤ py → py < art_height pich cellh →
      ∃! xy : Int × Int, isSourcePixel picw pich xy.1 xy.2 ∧
        (roi xy.1 xy.2 cellw cellh).contains px py) := by
  refine ⟨?_, ?_, ?_⟩
  · rintro x y ⟨hx0, hx, hy0, hy⟩
    refine ⟨rfl, mul_nonneg hx0 (le_of_lt hw), mul_nonneg hy0 (le_of_lt hh), ?_, ?_⟩
    · show x * cellw + cellw ≤ picw * cellw
      have : (x + 1) * cellw ≤ picw * cellw :=
        mul_le_mul_of_nonneg_right (by omega) (le_of_lt hw)
      linarith
    · show y * cellh + cellh ≤ pich * cellh
      have : (y + 1) * cellh ≤ pich * cellh :=
        mul_le_mul_of_nonneg_right (by omega) (le_of_lt hh)
      linarith
  · rintro x y x2 y2 _ _ hne px py ⟨⟨a1, a2, a3, a4⟩, ⟨b1, b2, b3, b4⟩⟩
    apply hne
    have ex : x = x2 := block_index_unique cellw px x x2 hw a1 a2 b1 b2
    have ey : y = y2 := block_index_unique cellh py y y2 hh a3 a4 b3 b4
    rw [ex, ey]
  · intro px py hpx0 hpx hpy0 hpy
    obtain ⟨i0, i1, i2, i3⟩ := block_index_exists cellw picw px hw hpx0 hpx
    obtain ⟨k0, k1, k2, k3⟩ := block_index_exists cellh pich py hh hpy0 hpy
    refine ⟨(px / cellw, py / cellh), ⟨⟨i0, i1, k0, k1⟩, ⟨i2, i3, k2, k3⟩⟩, ?_⟩
    rintro ⟨x, y⟩ ⟨_, ⟨a1, a2, a3, a4⟩⟩
    have ex : x = px / cellw := block_index_unique cellw px x _ hw a1 a2 i2 i3
    have ey : y = py / cellh := block_index_unique cellh py y _ hh a3 a4 k2 k3
    rw [ex, ey]

/-- Witness of C10 for a source of 3 x 2 pixels and cells of 8 x 16 pixels. -/
theorem roi_blocks_tile_canvas_witness :
    ((0 : Int) < 8 ∧ (0 : Int) < 16) ∧
    ((∀ x y : Int, isSourcePixel 3 2 x y →
      roi x y 8 16 = { x := x * 8, y := y * 16, width := 8, height := 16 } ∧
      0 ≤ (roi x y 8 16).x ∧ 0 ≤ (roi x y 8 16).y ∧
      (roi x y 8 16).x + (roi x y 8 16).width ≤ art_width 3 8 ∧
      (roi x y 8 16).y + (roi x y 8 16).height ≤ art_height 2 16) ∧
    (∀ x y x2 y2 : Int, isSourcePixel 3 2 x y → isSourcePixel 3 2 x2 y2 →
      (x, y) ≠ (x2, y2) →
      ∀ px py : Int, ¬ ((roi x y 8 16).contains px py ∧ (roi x2 y2 8 16).contains px py)) ∧
    (∀ px py : Int, 0 ≤ px → px < art_width 3 8 → 0 ≤ py → py < art_height 2 16 →
      ∃! xy : Int × Int, isSourcePixel 3 2 xy.1 xy.2 ∧ (roi xy.1 xy.2 8 16).contains px py)) :=
  ⟨⟨by decide, by decide⟩, roi_blocks_tile_canvas 3 2 8 16 (by decide) (by decide)⟩

/-! ## Further lemmas on `similar2` and `similar` -/

/-- The first entry of a non-empty palette. -/
theorem getElem?_zero_of_ne_nil {T : Type} (palette : List T) (hne : palette ≠ []) :
    ∃ p0, palette[0]? = some p0 := by
  cases palette with
  | nil => exact absurd rfl hne
  | cons p0 rest => exact ⟨p0, by simp⟩

/-- One iteration of `similar2` after which `c1` is read off: either the new entry is strictly
closer and becomes `c1`, or `c1` and `dmin1` stay. -/
theorem similar2_step_c1 {D : Type} [LinearOrder D] (delta : D) (c : Nat)
    (s : Similar2State D) :
    (delta < s.dmin1 → (similar2_step delta c s).c1 = c ∧ (similar2_step delta c s).dmin1 = delta) ∧
    (¬ delta < s.dmin1 →
      (similar2_step delta c s).c1 = s.c1 ∧ (similar2_step delta c s).dmin1 = s.dmin1) := by
  unfold similar2_step
  constructor
  · intro h
    rw [if_pos h]
    exact ⟨rfl, rfl⟩
  · intro h
    rw [if_neg h]
    split <;> exact ⟨rfl, rfl⟩

/-- The entry at `c1` during the loop of `similar2` is the accumulator of the fold of
`similar`. -/
theorem similar2_loop_c1_eq_foldl {T D : Type} [LinearOrder D] (goal : T)
    (distance : T → T → D) (todo seen : List T) (s : Similar2State D) (prev : T)
    (hprev : seen[s.c1]? = some prev) (hd : s.dmin1 = distance goal prev) :
    (seen ++ todo)[(similar2_loop goal distance todo seen.length s).c1]? =
      some (todo.foldl (fun prev curr =>
        if distance goal curr < distance goal prev then curr else prev) prev) := by
  induction todo generalizing seen s prev with
  | nil => simpa [similar2_loop] using hprev
  | cons x xs ih =>
    have hlen : (seen ++ [x]).length = seen.length + 1 := by simp
    have happ : seen ++ x :: xs = (seen ++ [x]) ++ xs := by simp
    rw [similar2_loop, List.foldl_cons, happ, ← hlen]
    obtain ⟨hyes, hno⟩ := similar2_step_c1 (distance goal x) seen.length s
    by_cases hx : distance goal x < s.dmin1
    · obtain ⟨e1, e2⟩ := hyes hx
      have hx2 : distance goal x < distance goal prev := by rw [← hd]; exact hx
      rw [if_pos hx2]
      apply ih
      · rw [e1]
        exact (getElem?_concat_some seen x _ _).2 (Or.inr ⟨rfl, rfl⟩)
      · exact e2
    · obtain ⟨e1, e2⟩ := hno hx
      have hx2 : ¬ distance goal x < distance goal prev := by rw [← hd]; exact hx
      rw [if_neg hx2]
      apply ih
      · rw [e1]
        exact (getElem?_concat_some seen x _ _).2 (Or.inl hprev)
      · rw [e2]; exact hd

/-! ## Lemmas on `getCell` -/

/-- The locals of `getCell` in terms of the result of `similar2`. -/
theorem getCell_locals_of_similar2 {T D : Type} [LinearOrderedField D] [FloorRing D]
    (cm : Charmap T) (color : T) (distance : T → T → D) (c1 c2 : Nat) (p1 p2 : T)
    (hs : similar2 color cm.m_colormap distance = some (c1, c2))
    (hp1 : cm.m_colormap[c1]? = some p1) (hp2 : cm.m_colormap[c2]? = some p2) :
    cm.getCell_locals color distance =
      some { bg_pos := (c1 : Int), fg_pos := (c2 : Int),
             bg_delta := distance color p1, fg_delta := distance color p2,
             char_pos := char_pos cm.m_nchars (distance color p1) (distance color p2),
             cell_x := char_pos cm.m_nchars (distance color p1) (distance color p2) * cm.m_cellw,
             cell_y := ((c1 : Int) * cm.m_ncolors + (c2 : Int)) * cm.m_cellh } := by
  unfold Charmap.getCell_locals
  rw [hs]
  simp only [hp1, hp2]
  rfl

/-- The atlas row `b * N + f` determines `b` and `f` when `0 ≤ f < N`. -/
theorem row_index_unique (N b f b2 f2 : Int) (hf0 : 0 ≤ f) (hf : f < N) (hf20 : 0 ≤ f2)
    (hf2 : f2 < N) (h : b * N + f = b2 * N + f2) : b = b2 ∧ f = f2 := by
  have hN : 0 < N := lt_of_le_of_lt hf0 hf
  have hb : b = b2 :=
    block_index_unique N (b * N + f) b b2 hN (by linarith) (by linarith) (by linarith)
      (by linarith)
  refine ⟨hb, ?_⟩
  rw [hb] at h
  linarith

/-- The constructor succeeds for a non-empty ramp and a palette of positive width whose
square fits `int`. -/
theorem construct_eq_some {T : Type} (W H : Nat) (colormap : List T) (N : Nat) (chars : String)
    (hM : 1 ≤ chars.utf8ByteSize) (hN : 1 ≤ N) (hNN : N * N < 2 ^ 31) :
    Charmap.construct W H colormap N chars =
      some { charmap_width := W, charmap_height := H, m_colormap := colormap,
             colormap_width := N, m_chars := chars } := by
  unfold Charmap.construct
  rw [if_neg]
  omega

/-- The constructor has no result when the product `m_ncolors * m_ncolors` overflows `int`. -/
theorem construct_eq_none_of_overflow {T : Type} (W H : Nat) (colormap : List T) (N : Nat)
    (chars : String) (hNN : 2 ^ 31 ≤ N * N) :
    Charmap.construct W H colormap N chars = none := by
  unfold Charmap.construct
  rw [if_pos (Or.inr (Or.inr hNN))]

/-- On ordered non-negative distances the clamped glyph index of the spec is the glyph index
of `getCell`. -/
theorem glyphIndex_eq_char_pos {D : Type} [LinearOrderedField D] [FloorRing D] (M : Int)
    (d1 d2 : D) (hM : 1 ≤ M) (h1 : 0 ≤ d1) (h12 : d1 ≤ d2) :
    glyphIndex M d1 d2 = char_pos M d1 d2 := by
  have h0 := char_pos_nonneg M d1 d2 hM h1 (le_trans h1 h12)
  have hle := char_pos_le_of_le M d1 d2 hM h1 h12
  unfold glyphIndex
  by_cases hz : d2 = 0
  · rw [if_pos hz, char_pos_of_eq_zero M d1 d2 hz]
  · have hpos : 0 < d2 := lt_of_le_of_ne (le_trans h1 h12) (Ne.symm hz)
    have hcp := char_pos_of_pos M d1 d2 hM h1 hpos
    have hcast : ((M - 1 : Int) : D) = (M : D) - 1 := by push_cast; rfl
    rw [hcast] at hcp
    rw [if_neg hz, ← hcp, min_eq_right hle, max_eq_right h0]

/-- The search of the spec from an intermediate result: over entries ordered by position it
ends at the entry `t` that is nowhere farther than another entry and strictly closer than
every entry at a lower position. -/
theorem nearestEntry_foldl_eq {D : Type} [LinearOrder D] (L : List (Nat × D))
    (acc : Option (Nat × D)) (t : Nat × D)
    (hsorted : L.Pairwise fun a b => a.1 < b.1)
    (hacc : ∀ b, acc = some b → ∀ e ∈ L, b.1 < e.1)
    (hmem : t ∈ L ∨ acc = some t)
    (hminL : ∀ e ∈ L, t.2 ≤ e.2) (hminA : ∀ b, acc = some b → t.2 ≤ b.2)
    (hfirstL : ∀ e ∈ L, e.1 < t.1 → t.2 < e.2)
    (hfirstA : ∀ b, acc = some b → b.1 < t.1 → t.2 < b.2) :
    L.foldl nearestEntry_step acc = some t := by
  induction L generalizing acc with
  | nil =>
    rcases hmem with h | h
    · cases h
    · simpa using h
  | cons e L ih =>
    rw [List.foldl_cons]
    obtain ⟨hhead, htail⟩ := List.pairwise_cons.1 hsorted
    have hminL2 : ∀ x ∈ L, t.2 ≤ x.2 := fun x hx => hminL x (List.mem_cons_of_mem _ hx)
    have hfirstL2 : ∀ x ∈ L, x.1 < t.1 → t.2 < x.2 :=
      fun x hx => hfirstL x (List.mem_cons_of_mem _ hx)
    have hmine : t.2 ≤ e.2 := hminL e (List.mem_cons_self _ _)
    have hfirste : e.1 < t.1 → t.2 < e.2 := hfirstL e (List.mem_cons_self _ _)
    -- the search moves to `e`
    have toE : (t ∈ e :: L) → L.foldl nearestEntry_step (some e) = some t := by
      intro ht
      apply ih (some e) htail
      · intro b hb x hx
        cases hb
        exact hhead x hx
      · rcases List.mem_cons.1 ht with h | h
        · exact Or.inr (by rw [h])
        · exact Or.inl h
      · exact hminL2
      · intro b hb
        cases hb
        exact hmine
      · exact hfirstL2
      · intro b hb
        cases hb
        exact hfirste
    cases acc with
    | none =>
      have ht : t ∈ e :: L := by
        rcases hmem with h | h
        · exact h
        · cases h
      exact toE ht
    | some b =>
      have hstep : nearestEntry_step (some b) e = if e.2 < b.2 then some e else some b := rfl
      rw [hstep]
      by_cases hlt : e.2 < b.2
      · rw [if_pos hlt]
        apply toE
        rcases hmem with h | h
        · exact h
        · exfalso
          have hb : b = t := Option.some.inj h
          rw [hb] at hlt
          exact absurd hlt (not_lt.2 hmine)
      · rw [if_neg hlt]
        apply ih (some b) htail
        · intro b2 hb2 x hx
          exact hacc b2 hb2 x (List.mem_cons_of_mem _ hx)
        · rcases hmem with h | h
          · rcases List.mem_cons.1 h with h2 | h2
            · exfalso
              have hbe : b.1 < e.1 := hacc b rfl e (List.mem_cons_self _ _)
              rw [← h2] at hbe
              have := hfirstA b rfl hbe
              rw [h2] at this
              exact hlt this
            · exact Or.inl h2
          · exact Or.inr h
        · exact hminL2
        · exact hminA
        · exact hfirstL2
        · exact hfirstA

/-- The search of the spec over entries ordered by position returns the entry that is nowhere
farther than another entry and strictly closer than every entry at a lower position. -/
theorem nearestEntry_eq {D : Type} [LinearOrder D] (L : List (Nat × D)) (t : Nat × D)
    (hsorted : L.Pairwise fun a b => a.1 < b.1) (hmem : t ∈ L)
    (hmin : ∀ e ∈ L, t.2 ≤ e.2) (hfirst : ∀ e ∈ L, e.1 < t.1 → t.2 < e.2) :
    nearestEntry L = some t := by
  unfold nearestEntry
  apply nearestEntry_foldl_eq L none t hsorted
  · intro b hb
    cases hb
  · exact Or.inl hmem
  · exact hmin
  · intro b hb
    cases hb
  · exact hfirst
  · intro b hb
    cases hb

/-- The entries of an enumerated list are ordered by position. -/
theorem enum_pairwise_fst_lt {D : Type} (ds : List D) :
    ds.enum.Pairwise fun a b => a.1 < b.1 := by
  have h : (ds.enum.map Prod.fst).Pairwise (· < ·) := by
    rw [List.enum_map_fst]
    exact List.pairwise_lt_range _
  exact List.pairwise_map.1 h

/-- The nearest-pair search of the spec returns the positions `c1 ≠ c2` of entries `p1`, `p2`
when `p1` is nowhere farther than another entry, `p2` nowhere farther than an entry at a
position other than `c1`, and both are strictly closer than the entries at lower positions
that compete with them. -/
theorem nearestPair_eq_of_distinct {T D : Type} [LinearOrder D] (goal : T) (palette : List T)
    (distance : T → T → D) (c1 c2 : Nat) (p1 p2 : T) (hne : c1 ≠ c2)
    (hp1 : palette[c1]? = some p1) (hp2 : palette[c2]? = some p2)
    (hmin1 : ∀ (j : Nat) (p : T), palette[j]? = some p → distance goal p1 ≤ distance goal p)
    (hmin2 : ∀ (j : Nat) (p : T), palette[j]? = some p → j ≠ c1 →
      distance goal p2 ≤ distance goal p)
    (hfirst1 : ∀ (j : Nat) (p : T), palette[j]? = some p → j < c1 →
      distance goal p1 < distance goal p)
    (hfirst2 : ∀ (j : Nat) (p : T), palette[j]? = some p → j < c2 → j ≠ c1 →
      distance goal p2 < distance goal p) :
    nearestPair goal palette distance =
      some { best := c1, second := c2, d1 := distance goal p1, d2 := distance goal p2 } := by
  have hsorted := enum_pairwise_fst_lt (palette.map (distance goal))
  have hentry : ∀ e ∈ (palette.map (distance goal)).enum,
      ∃ p, palette[e.1]? = some p ∧ distance goal p = e.2 := by
    intro e he
    exact (getElem?_map_some _ _ _ _).1 (List.mem_enum_iff_getElem?.1 he)
  have hm1 : (c1, distance goal p1) ∈ (palette.map (distance goal)).enum :=
    List.mem_enum_iff_getElem?.2 ((getElem?_map_some _ _ _ _).2 ⟨p1, hp1, rfl⟩)
  have hm2 : (c2, distance goal p2) ∈ (palette.map (distance goal)).enum :=
    List.mem_enum_iff_getElem?.2 ((getElem?_map_some _ _ _ _).2 ⟨p2, hp2, rfl⟩)
  have h1 : nearestEntry (palette.map (distance goal)).enum = some (c1, distance goal p1) := by
    apply nearestEntry_eq _ _ hsorted hm1
    · intro e he
      obtain ⟨p, hp, hd⟩ := hentry e he
      rw [← hd]
      exact hmin1 e.1 p hp
    · intro e he hlt
      obtain ⟨p, hp, hd⟩ := hentry e he
      rw [← hd]
      exact hfirst1 e.1 p hp hlt
  have h2 : nearestEntry ((palette.map (distance goal)).enum.filter fun e => e.1 ≠ c1) =
      some (c2, distance goal p2) := by
    apply nearestEntry_eq _ _ (List.Pairwise.filter _ hsorted)
    · rw [List.mem_filter]
      exact ⟨hm2, by simpa using fun h => hne h.symm⟩
    · intro e he
      rw [List.mem_filter] at he
      obtain ⟨p, hp, hd⟩ := hentry e he.1
      rw [← hd]
      exact hmin2 e.1 p hp (by simpa using he.2)
    · intro e he hlt
      rw [List.mem_filter] at he
      obtain ⟨p, hp, hd⟩ := hentry e he.1
      rw [← hd]
      exact hfirst2 e.1 p hp hlt (by simpa using he.2)
  unfold nearestPair
  rw [h1]
  simp only [h2]

/-- For a pixel to which some palette entry is strictly closer than the first entry, the tile
of the GPU path of the spec is the tile of `getCell`: the two paths part only where `similar2`
returns the first entry twice. -/
theorem gpu_tile_eq_cpu_tile_of_closer {T D : Type} [LinearOrderedField D] [FloorRing D]
    (cm : Charmap T) (color : T) (distance : T → T → D) (hM : 1 ≤ cm.m_nchars)
    (hd : ∀ a b : T, 0 ≤ distance a b) (p0 q : T) (k : Nat)
    (h0 : cm.m_colormap[0]? = some p0) (hk : cm.m_colormap[k]? = some q)
    (hlt : distance color q < distance color p0) :
    ((nearestPair color cm.m_colormap distance).map fun r =>
        ({ glyph := glyphIndex cm.m_nchars r.d1 r.d2, bg := (r.best : Int),
           fg := (r.second : Int) } : TileSelection)) =
      (cm.getCell_locals color distance).map fun s =>
        { glyph := s.char_pos, bg := s.bg_pos, fg := s.fg_pos } := by
  have hne : cm.m_colormap ≠ [] := by
    intro h
    rw [h] at h0
    simp at h0
  obtain ⟨c1, c2, p1, p2, hs, hp1, hp2, hle, hmin1, hmin2, hfirst1, hfirst2, hsame, _⟩ :=
    similar2_spec color cm.m_colormap distance hne
  have hne12 : c1 ≠ c2 := by
    intro heq
    have hz : c1 = 0 := hsame heq
    rw [hz, h0] at hp1
    have e : p0 = p1 := Option.some.inj hp1
    have := hmin1 k q hk
    rw [← e] at this
    exact absurd hlt (not_lt.2 this)
  have hnp := nearestPair_eq_of_distinct color cm.m_colormap distance c1 c2 p1 p2 hne12 hp1 hp2
    hmin1 hmin2 hfirst1 hfirst2
  have hloc := getCell_locals_of_similar2 cm color distance c1 c2 p1 p2 hs hp1 hp2
  have hg := glyphIndex_eq_char_pos cm.m_nchars (distance color p1) (distance color p2) hM
    (hd color p1) hle
  rw [hnp, hloc]
  simp only [Option.map_some']
  rw [hg]

/-- C11, refuted as stated: for the ramp length 10 and the `float` distances
`d1 = 0x1.f1c71cp+2 = 16311182 * 2^(-21)` and `d2 = 10`, the quotient rounds up to
`13048946 * 2^(-24)`, the product with 9 rounds to 7, and the glyph index is 7, while
`floor(d1 / d2 * (M - 1)) = floor(6.9999999...) = 6`. -/
theorem char_pos_f32_not_exact_floor :
    (1 : Int) ≤ 10 ∧ (0 : ℚ) ≤ 16311182 / 2097152 ∧ (0 : ℚ) < 10 ∧
    round_f32 (16311182 / 2097152 : ℚ) = 16311182 / 2097152 ∧ round_f32 (10 : ℚ) = 10 ∧
    char_pos_f32 10 (16311182 / 2097152) 10 = some 7 ∧
    ⌊(16311182 / 2097152 : ℚ) / 10 * ((10 : ℚ) - 1)⌋ = 6 := by
  refine ⟨by decide, by norm_num, by norm_num, round_f32_distance_example, round_f32_ten,
    ?_, ?_⟩
  · rw [char_pos_f32_of_pos 10 (16311182 / 2097152) 10 (by decide) (by norm_num) (by norm_num)
      (by rw [round_f32_quotient_example]; unfold f32_max; norm_num)
      (by rw [round_f32_quotient_example, round_f32_nine, round_f32_product_example]; norm_num),
      round_f32_quotient_example, round_f32_nine, round_f32_product_example]
    norm_num
  · rw [Int.floor_eq_iff]
    norm_num

/-- C11, amended: for every ramp length `M ≥ 1`, first distance `d1 ≥ 0` and second distance
`d2 > 0`, when the quotient does not overflow `float` and the product is below `2^31`, the
glyph index of `getCell` is the floor of the product as `float` arithmetic computes it, the
quotient `d1 / d2` and its product with `M - 1` each rounded to `float`; it is
`floor(d1 / d2 * (M - 1))` when none of these roundings changes the value. -/
theorem char_pos_f32_eq_floor (M : Int) (d1 d2 : ℚ) (hM : 1 ≤ M) (h1 : 0 ≤ d1) (h2 : 0 < d2)
    (hq : round_f32 (d1 / d2) ≤ f32_max)
    (hi : round_f32 (round_f32 (d1 / d2) * round_f32 ((M - 1 : Int) : ℚ)) < 2 ^ 31) :
    char_pos_f32 M d1 d2 =
      some ⌊round_f32 (round_f32 (d1 / d2) * round_f32 ((M - 1 : Int) : ℚ))⌋ ∧
    (round_f32 (d1 / d2) = d1 / d2 → round_f32 ((M - 1 : Int) : ℚ) = (M : ℚ) - 1 →
      round_f32 (d1 / d2 * ((M : ℚ) - 1)) = d1 / d2 * ((M : ℚ) - 1) →
      char_pos_f32 M d1 d2 = some ⌊d1 / d2 * ((M : ℚ) - 1)⌋) := by
  have h := char_pos_f32_of_pos M d1 d2 hM h1 h2 hq hi
  refine ⟨h, ?_⟩
  intro e1 e2 e3
  rw [h, e1, e2, e3]

/-- Witness of C11 as amended, at the ramp length 10 and the `float` distances 5 and 10, where
no operation rounds. -/
theorem char_pos_f32_eq_floor_witness :
    ((1 : Int) ≤ 10 ∧ (0 : ℚ) ≤ 5 ∧ (0 : ℚ) < 10 ∧
      round_f32 ((5 : ℚ) / 10) ≤ f32_max ∧
      round_f32 (round_f32 ((5 : ℚ) / 10) * round_f32 ((10 - 1 : Int) : ℚ)) < 2 ^ 31) ∧
    (char_pos_f32 10 5 10 =
      some ⌊round_f32 (round_f32 ((5 : ℚ) / 10) * round_f32 ((10 - 1 : Int) : ℚ))⌋ ∧
    (round_f32 ((5 : ℚ) / 10) = (5 : ℚ) / 10 →
      round_f32 ((10 - 1 : Int) : ℚ) = ((10 : Int) : ℚ) - 1 →
      round_f32 ((5 : ℚ) / 10 * (((10 : Int) : ℚ) - 1)) = (5 : ℚ) / 10 * (((10 : Int) : ℚ) - 1) →
      char_pos_f32 10 5 10 = some ⌊(5 : ℚ) / 10 * (((10 : Int) : ℚ) - 1)⌋)) :=
  ⟨⟨by decide, by norm_num, by norm_num,
      by rw [round_f32_half_example]; unfold f32_max; norm_num,
      by rw [round_f32_half_example, round_f32_nine, round_f32_half_product_example]; norm_num⟩,
    char_pos_f32_eq_floor 10 5 10 (by decide) (by norm_num) (by norm_num)
      (by rw [round_f32_half_example]; unfold f32_max; norm_num)
      (by rw [round_f32_half_example, round_f32_nine, round_f32_half_product_example];
          norm_num)⟩

/-- C16: for every non-empty palette, goal colour and distance function the two positions
returned by `similar2` coincide if and only if no palette entry is strictly closer to the goal
than the first entry; in that case both positions are 0. -/
theorem similar2_same_iff_first_closest {T D : Type} [LinearOrder D] (goal : T)
    (palette : List T) (distance : T → T → D) (hne : palette ≠ []) :
    ∃ c1 c2 p0, similar2 goal palette distance = some (c1, c2) ∧ palette[0]? = some p0 ∧
      (c1 = c2 ↔
        ∀ (j : Nat) (p : T), palette[j]? = some p → ¬ distance goal p < distance goal p0) ∧
      (c1 = c2 → c1 = 0 ∧ c2 = 0) := by
  obtain ⟨c1, c2, p1, p2, hs, hp1, _, _, hmin1, _, _, _, hsame, hdiff⟩ :=
    similar2_spec goal palette distance hne
  obtain ⟨p0, hp0⟩ := getElem?_zero_of_ne_nil palette hne
  refine ⟨c1, c2, p0, hs, hp0, ⟨?_, ?_⟩, ?_⟩
  · intro heq j p hj
    have h0 : c1 = 0 := hsame heq
    rw [h0, hp0] at hp1
    have e : p0 = p1 := Option.some.inj hp1
    rw [e]
    exact not_lt.2 (hmin1 j p hj)
  · intro hall
    by_contra hne12
    exact hall c1 p1 hp1 (hdiff p0 hp0 hne12)
  · intro heq
    have h0 : c1 = 0 := hsame heq
    exact ⟨h0, by rw [← heq]; exact h0⟩

/-- Witness of C16 on the palette `[1, 5, 3]` of integers with goal `2` and the distance
`|a - b|`, where the first entry is the closest. -/
theorem similar2_same_iff_first_closest_witness :
    ([1, 5, 3] : List Int) ≠ [] ∧
    ∃ c1 c2 p0, similar2 (2 : Int) [1, 5, 3] (fun a b => |a - b|) = some (c1, c2) ∧
      ([1, 5, 3] : List Int)[0]? = some p0 ∧
      (c1 = c2 ↔
        ∀ (j : Nat) (p : Int), ([1, 5, 3] : List Int)[j]? = some p →
          ¬ |(2 : Int) - p| < |(2 : Int) - p0|) ∧
      (c1 = c2 → c1 = 0 ∧ c2 = 0) :=
  ⟨by decide,
    similar2_same_iff_first_closest (2 : Int) [1, 5, 3] (fun a b => |a - b|) (by decide)⟩

/-- C17: when some palette entry is strictly closer to the goal than the first entry,
`similar2` returns distinct positions `c1 ≠ c2`, the entry at `c1` is at minimum distance over
the whole palette and the entry at `c2` is at minimum distance over all positions other than
`c1`. -/
theorem similar2_distinct_of_closer {T D : Type} [LinearOrder D] (goal : T)
    (palette : List T) (distance : T → T → D) (p0 q : T) (k : Nat)
    (h0 : palette[0]? = some p0) (hk : palette[k]? = some q)
    (hlt : distance goal q < distance goal p0) :
    ∃ c1 c2 p1 p2, similar2 goal palette distance = some (c1, c2) ∧ c1 ≠ c2 ∧
      palette[c1]? = some p1 ∧ palette[c2]? = some p2 ∧
      (∀ (j : Nat) (p : T), palette[j]? = some p → distance goal p1 ≤ distance goal p) ∧
      (∀ (j : Nat) (p : T), palette[j]? = some p → j ≠ c1 →
        distance goal p2 ≤ distance goal p) := by
  have hne : palette ≠ [] := by
    intro h
    subst h
    simp at h0
  obtain ⟨c1, c2, p1, p2, hs, hp1, hp2, _, hmin1, hmin2, _, _, hsame, _⟩ :=
    similar2_spec goal palette distance hne
  refine ⟨c1, c2, p1, p2, hs, ?_, hp1, hp2, hmin1, hmin2⟩
  intro heq
  have hz : c1 = 0 := hsame heq
  rw [hz, h0] at hp1
  have e : p0 = p1 := Option.some.inj hp1
  have := hmin1 k q hk
  rw [← e] at this
  exact absurd hlt (not_lt.2 this)

/-- Witness of C17 on the palette `[5, 7, 3, 4]` of integers with goal `3` and the distance
`|a - b|`: the entry 3 at position 2 is strictly closer than the first entry 5. -/
theorem similar2_distinct_of_closer_witness :
    (([5, 7, 3, 4] : List Int)[0]? = some 5 ∧ ([5, 7, 3, 4] : List Int)[2]? = some 3 ∧
      |(3 : Int) - 3| < |(3 : Int) - 5|) ∧
    ∃ c1 c2 p1 p2, similar2 (3 : Int) [5, 7, 3, 4] (fun a b => |a - b|) = some (c1, c2) ∧
      c1 ≠ c2 ∧
      ([5, 7, 3, 4] : List Int)[c1]? = some p1 ∧ ([5, 7, 3, 4] : List Int)[c2]? = some p2 ∧
      (∀ (j : Nat) (p : Int), ([5, 7, 3, 4] : List Int)[j]? = some p →
        |(3 : Int) - p1| ≤ |(3 : Int) - p|) ∧
      (∀ (j : Nat) (p : Int), ([5, 7, 3, 4] : List Int)[j]? = some p → j ≠ c1 →
        |(3 : Int) - p2| ≤ |(3 : Int) - p|) :=
  ⟨⟨by decide, by decide, by decide⟩,
    similar2_distinct_of_closer (3 : Int) [5, 7, 3, 4] (fun a b => |a - b|) 5 3 2
      (by decide) (by decide) (by decide)⟩

/-- C19: for every non-empty palette, goal colour and distance function the colour returned
by `similar`, a left-to-right fold over the palette, is the palette entry at the position
`c1` that `similar2` returns first. -/
theorem similar_eq_similar2_first {T D : Type} [LinearOrder D] (goal : T)
    (palette : List T) (distance : T → T → D) (hne : palette ≠ []) :
    ∃ c1 c2 p, similar2 goal palette distance = some (c1, c2) ∧
      similar goal palette distance = some p ∧ palette[c1]? = some p := by
  cases palette with
  | nil => exact absurd rfl hne
  | cons p0 rest =>
    have h := similar2_loop_c1_eq_foldl goal distance rest [p0]
      { dmin1 := distance goal p0, dmin2 := distance goal p0, c1 := 0, c2 := 0 } p0 rfl rfl
    exact ⟨_, _, _, rfl, rfl, h⟩

/-- Witness of C19 on the palette `[5, 1, 3, 5, 1]` of integers with goal `3` and the distance
`|a - b|`. -/
theorem similar_eq_similar2_first_witness :
    ([5, 1, 3, 5, 1] : List Int) ≠ [] ∧
    ∃ c1 c2 p, similar2 (3 : Int) [5, 1, 3, 5, 1] (fun a b => |a - b|) = some (c1, c2) ∧
      similar (3 : Int) [5, 1, 3, 5, 1] (fun a b => |a - b|) = some p ∧
      ([5, 1, 3, 5, 1] : List Int)[c1]? = some p :=
  ⟨by decide,
    similar_eq_similar2_first (3 : Int) [5, 1, 3, 5, 1] (fun a b => |a - b|) (by decide)⟩

/-- C20: for `cellW > 0`, `cellH > 0` and two triples `(g, b, f)`, `(g2, b2, f2)` of valid
indices (`0 ≤ g, g2 < M`, `0 ≤ b, f, b2, f2 < N`) that differ, the cell origins
`(g * cellW, (b * N + f) * cellH)` differ and the two `cellW x cellH` rectangles share no
pixel. -/
theorem cellRect_injective {T : Type} (cm : Charmap T) (g b f g2 b2 f2 : Int)
    (hw : 0 < cm.cellW) (hh : 0 < cm.cellH)
    (_hg : 0 ≤ g ∧ g < cm.m_nchars) (_hb : 0 ≤ b ∧ b < cm.m_ncolors)
    (hf : 0 ≤ f ∧ f < cm.m_ncolors)
    (_hg2 : 0 ≤ g2 ∧ g2 < cm.m_nchars) (_hb2 : 0 ≤ b2 ∧ b2 < cm.m_ncolors)
    (hf2 : 0 ≤ f2 ∧ f2 < cm.m_ncolors)
    (hne : (g, b, f) ≠ (g2, b2, f2)) :
    ((cm.cellRect g b f).x, (cm.cellRect g b f).y) =
      (g * cm.cellW, (b * cm.m_ncolors + f) * cm.cellH) ∧
    ((cm.cellRect g b f).x, (cm.cellRect g b f).y) ≠
      ((cm.cellRect g2 b2 f2).x, (cm.cellRect g2 b2 f2).y) ∧
    ∀ px py : Int, ¬ ((cm.cellRect g b f).contains px py ∧
      (cm.cellRect g2 b2 f2).contains px py) := by
  have hw2 : 0 < cm.m_cellw := hw
  have hh2 : 0 < cm.m_cellh := hh
  refine ⟨rfl, ?_, ?_⟩
  · intro heq
    have hx : g * cm.m_cellw = g2 * cm.m_cellw := congrArg Prod.fst heq
    have hy : (b * cm.m_ncolors + f) * cm.m_cellh = (b2 * cm.m_ncolors + f2) * cm.m_cellh :=
      congrArg Prod.snd heq
    have eg : g = g2 := mul_right_cancel₀ (ne_of_gt hw2) hx
    have erow : b * cm.m_ncolors + f = b2 * cm.m_ncolors + f2 :=
      mul_right_cancel₀ (ne_of_gt hh2) hy
    obtain ⟨eb, ef⟩ := row_index_unique cm.m_ncolors b f b2 f2 hf.1 hf.2 hf2.1 hf2.2 erow
    apply hne
    rw [eg, eb, ef]
  · rintro px py ⟨⟨a1, a2, a3, a4⟩, ⟨b1, b2', b3, b4⟩⟩
    have eg : g = g2 := block_index_unique cm.m_cellw px g g2 hw2 a1 a2 b1 b2'
    have erow : b * cm.m_ncolors + f = b2 * cm.m_ncolors + f2 :=
      block_index_unique cm.m_cellh py _ _ hh2 a3 a4 b3 b4
    obtain ⟨eb, ef⟩ := row_index_unique cm.m_ncolors b f b2 f2 hf.1 hf.2 hf2.1 hf2.2 erow
    apply hne
    rw [eg, eb, ef]

/-- Witness of C20: the cells `(0, 0, 1)` and `(0, 1, 0)` of the two-colour scenario with an
atlas of 16 x 32 pixels. -/
theorem cellRect_injective_witness :
    (0 < (scenarioCharmap 16 32).cellW ∧ 0 < (scenarioCharmap 16 32).cellH ∧
      ((0 : Int) < (scenarioCharmap 16 32).m_nchars) ∧
      ((1 : Int) < (scenarioCharmap 16 32).m_ncolors) ∧
      ((0 : Int), (0 : Int), (1 : Int)) ≠ (0, 1, 0)) ∧
    (((scenarioCharmap 16 32).cellRect 0 0 1).x, ((scenarioCharmap 16 32).cellRect 0 0 1).y) =
      (0 * (scenarioCharmap 16 32).cellW,
        (0 * (scenarioCharmap 16 32).m_ncolors + 1) * (scenarioCharmap 16 32).cellH) ∧
    (((scenarioCharmap 16 32).cellRect 0 0 1).x, ((scenarioCharmap 16 32).cellRect 0 0 1).y) ≠
      (((scenarioCharmap 16 32).cellRect 0 1 0).x, ((scenarioCharmap 16 32).cellRect 0 1 0).y) ∧
    ∀ px py : Int, ¬ (((scenarioCharmap 16 32).cellRect 0 0 1).contains px py ∧
      ((scenarioCharmap 16 32).cellRect 0 1 0).contains px py) :=
  ⟨⟨by decide, by decide, by decide, by decide, by decide⟩,
    cellRect_injective (scenarioCharmap 16 32) 0 0 1 0 1 0 (by decide) (by decide)
      ⟨by decide, by decide⟩ ⟨by decide, by decide⟩ ⟨by decide, by decide⟩
      ⟨by decide, by decide⟩ ⟨by decide, by decide⟩ ⟨by decide, by decide⟩ (by decide)⟩

/-- C12, refuted as stated: an atlas of 17 x 35 pixels with the ramp `" #"` (`M = 2`) and a
palette of `N = 2` colours, where 2 does not divide 17 and 4 does not divide 35, gives a
`Charmap` with the truncated cell size 8 x 8 and no error. -/
theorem construct_accepts_uneven_atlas :
    17 % 2 ≠ 0 ∧ 35 % (2 * 2) ≠ 0 ∧
    ∃ cm : Charmap (lab_t ℝ), Charmap.construct 17 35 [Black, White] 2 " #" = some cm ∧
      cm.cellW = 8 ∧ cm.cellH = 8 := by
  refine ⟨by decide, by decide, _, construct_eq_some 17 35 [Black, White] 2 " #" (by decide)
    (by decide) (by decide), ?_, ?_⟩
  · decide
  · decide

/-- C12, amended: the constructor checks no divisibility.  For every ramp of length `M ≥ 1`,
palette of width `N ≥ 1` with `M * N * N < 2^31` (no `int` product of the member initialisers
overflows) and atlas of `W x H` pixels (`W, H < 2^31`, as `int`) it produces a `Charmap` with
the truncated quotients `cellW = W / M` and `cellH = H / (N * N)` as cell sizes, whether or
not the divisions are exact. -/
theorem construct_truncates_cell_size {T : Type} (W H : Nat) (colormap : List T) (N : Nat)
    (chars : String) (hM : 1 ≤ chars.utf8ByteSize) (hN : 1 ≤ N)
    (hov : chars.utf8ByteSize * N * N < 2 ^ 31) (_hW : W < 2 ^ 31) (_hH : H < 2 ^ 31) :
    ∃ cm : Charmap T, Charmap.construct W H colormap N chars = some cm ∧
      cm.m_nchars = (chars.utf8ByteSize : Int) ∧ cm.m_ncolors = (N : Int) ∧
      cm.m_ncells = ((chars.utf8ByteSize * N * N : Nat) : Int) ∧
      cm.cellW = ((W / chars.utf8ByteSize : Nat) : Int) ∧
      cm.cellH = ((H / (N * N) : Nat) : Int) := by
  have hNN : N * N < 2 ^ 31 := by
    have h1 : 1 * N * N ≤ chars.utf8ByteSize * N * N :=
      Nat.mul_le_mul_right N (Nat.mul_le_mul_right N hM)
    rw [Nat.one_mul] at h1
    exact lt_of_le_of_lt h1 hov
  refine ⟨_, construct_eq_some W H colormap N chars hM hN hNN, rfl, rfl, ?_, ?_, ?_⟩
  · show (chars.utf8ByteSize : Int) * (N : Int) * (N : Int) = _
    push_cast
    rfl
  · exact (Int.ofNat_tdiv W chars.utf8ByteSize).symm
  · show Int.tdiv (H : Int) ((N : Int) * (N : Int)) = ((H / (N * N) : Nat) : Int)
    rw [Int.ofNat_tdiv]
    push_cast
    rfl

/-- Witness of C12 as amended, on the atlas of 17 x 35 pixels with the ramp `" #"` and two
colours. -/
theorem construct_truncates_cell_size_witness :
    (1 ≤ " #".utf8ByteSize ∧ 1 ≤ 2 ∧ " #".utf8ByteSize * 2 * 2 < 2 ^ 31 ∧ 17 < 2 ^ 31 ∧
      35 < 2 ^ 31) ∧
    ∃ cm : Charmap (lab_t ℝ), Charmap.construct 17 35 [Black, White] 2 " #" = some cm ∧
      cm.m_nchars = (" #".utf8ByteSize : Int) ∧ cm.m_ncolors = ((2 : Nat) : Int) ∧
      cm.m_ncells = ((" #".utf8ByteSize * 2 * 2 : Nat) : Int) ∧
      cm.cellW = ((17 / " #".utf8ByteSize : Nat) : Int) ∧
      cm.cellH = ((35 / (2 * 2) : Nat) : Int) :=
  ⟨⟨by decide, by decide, by decide, by decide, by decide⟩,
    construct_truncates_cell_size 17 35 [Black, White] 2 " #" (by decide) (by decide)
      (by decide) (by decide) (by decide)⟩

end Aart
